import Mathlib

/-!
# Gym progress tracker: the REST routes of `app.js` over the two-table store

The store is the SQLite database opened by `app.js`: table `exercises`
(`id INTEGER PRIMARY KEY AUTOINCREMENT, name TEXT, muscle_group TEXT`) and table
`progress` (`id INTEGER PRIMARY KEY AUTOINCREMENT, exercise_id INTEGER, weight REAL,
date TEXT`).  Each route handler of `app.js` is a function of the store and of the
request; the two POST handlers also return the store they leave behind.

Scope of the embedding.
* Request fields are typed by the column they are written to: `name`, `muscle_group`
  and `date` are JSON strings, `exercise_id` is an integer number, `weight` a finite
  number (the exact rational value of the double); every field may be missing.
* The store never fails: the `if (err)` branches of the handlers (HTTP 500) have no
  counterpart here.  Row ids are unbounded integers.
* TEXT values are compared with SQLite's default BINARY collation, which is the
  lexicographic order of the code points of the two strings.
* A table is the list of its rows in rowid order; `ORDER BY` is a stable sort of the
  scanned rows (SQLite leaves the order of rows with equal keys unspecified; no
  theorem below depends on it).
* The client functions of `public/js/main.js` are functions of the fetched list and
  of the part of the page they read and write.  Dates are ECMAScript time values
  (integer milliseconds); the local zone has a constant offset `localTZA`; the two
  `new Date()` calls of `filterDataByTimeRange` read the same instant `now`; time
  values stay in the range where `TimeClip` is the identity.
* `new Date(string)` is the parser of the engine the page runs in.  ECMAScript fixes
  its value only on its own date-time format and leaves every other string to the
  engine, so the parser is a parameter `dateParse` of the client functions that call
  it; `isoDateOnly` is the value ECMAScript fixes for a date-only string.
* Requests in flight at the same time are interleaved at the grain of the callbacks of
  `app.js`: the event loop runs one callback to its end before the next, and the store
  runs one statement at a time.
-/

namespace GymTracker

/-! ## Data model -/

/-- Row of table `exercises`. -/
structure Exercise where
  id : Int
  name : String
  muscle_group : String
deriving DecidableEq, Repr

/-- Row of table `progress`. -/
structure Progress where
  id : Int
  exercise_id : Int
  weight : Rat
  date : String
deriving DecidableEq, Repr

/-- Row returned by the joined queries:
`SELECT p.id, p.exercise_id, e.name as exercise_name, e.muscle_group, p.weight, p.date`. -/
structure ProgressRow where
  id : Int
  exercise_id : Int
  exercise_name : String
  muscle_group : String
  weight : Rat
  date : String
deriving DecidableEq, Repr

/-- State of the database: the two tables in rowid order, and for each table the
largest rowid ever handed out (the `sqlite_sequence` entry kept for AUTOINCREMENT). -/
structure Store where
  exercises : List Exercise
  progress : List Progress
  exercises_seq : Int
  progress_seq : Int
deriving DecidableEq, Repr

/-- The database right after the two `CREATE TABLE IF NOT EXISTS` statements. -/
def emptyStore : Store := ⟨[], [], 0, 0⟩

/-! ## HTTP layer -/

/-- JSON body of a response: either `{ error: msg }` or a payload. -/
inductive Body (α : Type) where
  | error (msg : String)
  | json (value : α)
deriving DecidableEq, Repr

/-- Response of a handler: `res.status(code).json(body)`; `res.json` alone sends 200. -/
structure Response (α : Type) where
  status : Nat
  body : Body α
deriving DecidableEq, Repr

/-- Body of `POST /api/exercises`: `const { name, muscle_group } = req.body`. -/
structure ExerciseBody where
  name : Option String
  muscle_group : Option String
deriving DecidableEq, Repr

/-- Body of `POST /api/progress`: `const { exercise_id, weight, date } = req.body`. -/
structure ProgressBody where
  exercise_id : Option Int
  weight : Option Rat
  date : Option String
deriving DecidableEq, Repr

/-- Payload answered by a successful `POST /api/exercises`. -/
structure ExerciseCreated where
  id : Int
  name : String
  muscle_group : String
  message : String
deriving DecidableEq, Repr

/-- Payload answered by a successful `POST /api/progress`. -/
structure ProgressCreated where
  id : Int
  exercise_id : Int
  weight : Rat
  date : String
  message : String
deriving DecidableEq, Repr

/-- The string carried by a field for which JavaScript's `!v` is false: a missing
field and the empty string are both falsy. -/
def truthyText : Option String → Option String
  | some s => if s = "" then none else some s
  | none => none

/-- The integer carried by a field for which JavaScript's `!v` is false: a missing
field and the number `0` are both falsy. -/
def truthyInt : Option Int → Option Int
  | some n => if n = 0 then none else some n
  | none => none

/-- The number carried by a field for which JavaScript's `!v` is false: a missing
field and the number `0` are both falsy. -/
def truthyNumber : Option Rat → Option Rat
  | some w => if w = 0 then none else some w
  | none => none

/-! ## Store operations -/

/-- BINARY collation, non-strict: `a` sorts before or together with `b`. -/
def textLe (a b : String) : Prop := a.toList ≤ b.toList

/-- BINARY collation, strict: `a` sorts strictly before `b`. -/
def textLt (a b : String) : Prop := a.toList < b.toList

instance textLe.decidable : DecidableRel textLe :=
  fun a b => inferInstanceAs (Decidable (a.toList ≤ b.toList))

instance textLt.decidable : DecidableRel textLt :=
  fun a b => inferInstanceAs (Decidable (a.toList < b.toList))

/-- Rowid chosen by an AUTOINCREMENT insert: one more than the largest rowid that
has ever existed in the table. -/
def nextRowid (ids : List Int) (seq : Int) : Int :=
  ids.foldr max (max seq 0) + 1

/-- Run `INSERT INTO exercises (name, muscle_group) VALUES (?, ?)`; returns
`this.lastID` and the new database. -/
def insertExercise (db : Store) (name muscle_group : String) : Int × Store :=
  let lastID := nextRowid (db.exercises.map Exercise.id) db.exercises_seq
  (lastID, { db with
    exercises := db.exercises ++ [⟨lastID, name, muscle_group⟩],
    exercises_seq := lastID })

/-- Run `INSERT INTO progress (exercise_id, weight, date) VALUES (?, ?, ?)`; returns
`this.lastID` and the new database. -/
def insertProgress (db : Store) (exercise_id : Int) (weight : Rat) (date : String) :
    Int × Store :=
  let lastID := nextRowid (db.progress.map Progress.id) db.progress_seq
  (lastID, { db with
    progress := db.progress ++ [⟨lastID, exercise_id, weight, date⟩],
    progress_seq := lastID })

/-- `ORDER BY muscle_group, name`. -/
def byMuscleGroupThenName (a b : Exercise) : Prop :=
  textLt a.muscle_group b.muscle_group ∨
    (a.muscle_group = b.muscle_group ∧ textLe a.name b.name)

instance byMuscleGroupThenName.decidable : DecidableRel byMuscleGroupThenName :=
  fun a b => inferInstanceAs (Decidable (textLt a.muscle_group b.muscle_group ∨
    (a.muscle_group = b.muscle_group ∧ textLe a.name b.name)))

/-- `ORDER BY name`. -/
def byName (a b : Exercise) : Prop := textLe a.name b.name

instance byName.decidable : DecidableRel byName :=
  fun a b => inferInstanceAs (Decidable (textLe a.name b.name))

/-- `ORDER BY p.date DESC`. -/
def byDateDesc (a b : ProgressRow) : Prop := textLe b.date a.date

instance byDateDesc.decidable : DecidableRel byDateDesc :=
  fun a b => inferInstanceAs (Decidable (textLe b.date a.date))

/-- `ORDER BY p.date`. -/
def byDate (a b : ProgressRow) : Prop := textLe a.date b.date

instance byDate.decidable : DecidableRel byDate :=
  fun a b => inferInstanceAs (Decidable (textLe a.date b.date))

/-- `ORDER BY e.name, p.date`. -/
def byExerciseNameThenDate (a b : ProgressRow) : Prop :=
  textLt a.exercise_name b.exercise_name ∨
    (a.exercise_name = b.exercise_name ∧ textLe a.date b.date)

instance byExerciseNameThenDate.decidable : DecidableRel byExerciseNameThenDate :=
  fun a b => inferInstanceAs (Decidable (textLt a.exercise_name b.exercise_name ∨
    (a.exercise_name = b.exercise_name ∧ textLe a.date b.date)))

/-- Rows of `FROM progress p JOIN exercises e ON p.exercise_id = e.id`, projected to
`p.id, p.exercise_id, e.name as exercise_name, e.muscle_group, p.weight, p.date`. -/
def joinProgress (db : Store) : List ProgressRow :=
  db.progress.flatMap fun p =>
    (db.exercises.filter fun e => p.exercise_id = e.id).map fun e =>
      ⟨p.id, p.exercise_id, e.name, e.muscle_group, p.weight, p.date⟩

/-- Rows of `SELECT * FROM exercises ORDER BY muscle_group, name`. -/
def selectExercises (db : Store) : List Exercise :=
  db.exercises.insertionSort byMuscleGroupThenName

/-- Rows of `SELECT * FROM exercises WHERE muscle_group = ? ORDER BY name`. -/
def selectExercisesByMuscleGroup (db : Store) (muscleGroup : String) : List Exercise :=
  (db.exercises.filter fun e => e.muscle_group = muscleGroup).insertionSort byName

/-- Row of `SELECT id FROM exercises WHERE name = ? AND muscle_group = ?` as seen by
`db.get`: the first matching row, if any. -/
def findExerciseByNameGroup (db : Store) (name muscle_group : String) : Option Exercise :=
  db.exercises.find? fun e => e.name = name ∧ e.muscle_group = muscle_group

/-- Row of `SELECT id FROM exercises WHERE id = ?` as seen by `db.get`. -/
def findExerciseById (db : Store) (exercise_id : Int) : Option Exercise :=
  db.exercises.find? fun e => e.id = exercise_id

/-- Rows of the joined query `... ORDER BY p.date DESC`. -/
def selectProgress (db : Store) : List ProgressRow :=
  (joinProgress db).insertionSort byDateDesc

/-- Rows of the joined query `... WHERE p.exercise_id = ? ORDER BY p.date`. -/
def selectProgressForExercise (db : Store) (exerciseId : Int) : List ProgressRow :=
  ((joinProgress db).filter fun r => r.exercise_id = exerciseId).insertionSort byDate

/-- Rows of the joined query `... WHERE e.muscle_group = ? ORDER BY e.name, p.date`. -/
def selectProgressByMuscleGroup (db : Store) (muscleGroup : String) : List ProgressRow :=
  ((joinProgress db).filter fun r => r.muscle_group = muscleGroup).insertionSort
    byExerciseNameThenDate

/-! ## Route handlers -/

/-- Handler of `GET /api/exercises`. -/
def listExercises (db : Store) : Response (List Exercise) :=
  ⟨200, .json (selectExercises db)⟩

/-- Handler of `GET /api/exercises/muscle/:group`. -/
def listExercisesByMuscleGroup (db : Store) (group : String) : Response (List Exercise) :=
  ⟨200, .json (selectExercisesByMuscleGroup db group)⟩

/-- Handler of `POST /api/exercises`. -/
def addExercise (db : Store) (body : ExerciseBody) : Response ExerciseCreated × Store :=
  match truthyText body.name, truthyText body.muscle_group with
  | some name, some muscle_group =>
    match findExerciseByNameGroup db name muscle_group with
    | some _ => (⟨400, .error "Exercise already exists"⟩, db)
    | none =>
      let (lastID, db') := insertExercise db name muscle_group
      (⟨200, .json ⟨lastID, name, muscle_group, "Exercise added successfully"⟩⟩, db')
  | _, _ => (⟨400, .error "Exercise name and muscle group are required"⟩, db)

/-- Handler of `GET /api/progress`. -/
def listProgress (db : Store) : Response (List ProgressRow) :=
  ⟨200, .json (selectProgress db)⟩

/-- Handler of `GET /api/progress/exercise/:id`; `id` is the integer that the path
segment denotes when compared with the INTEGER column. -/
def listProgressForExercise (db : Store) (id : Int) : Response (List ProgressRow) :=
  ⟨200, .json (selectProgressForExercise db id)⟩

/-- Handler of `GET /api/progress/muscle/:group`. -/
def listProgressByMuscleGroup (db : Store) (group : String) : Response (List ProgressRow) :=
  ⟨200, .json (selectProgressByMuscleGroup db group)⟩

/-- Handler of `POST /api/progress`. -/
def addProgress (db : Store) (body : ProgressBody) : Response ProgressCreated × Store :=
  match truthyInt body.exercise_id, truthyNumber body.weight, truthyText body.date with
  | some exercise_id, some weight, some date =>
    match findExerciseById db exercise_id with
    | none => (⟨400, .error "Exercise does not exist"⟩, db)
    | some _ =>
      let (lastID, db') := insertProgress db exercise_id weight date
      (⟨200, .json ⟨lastID, exercise_id, weight, date, "Progress added successfully"⟩⟩, db')
  | _, _, _ => (⟨400, .error "Exercise ID, weight, and date are required"⟩, db)

/-! ## Store constraints and sample states -/

/-- Data-model constraint on the stored exercises: `name` and `muscle_group` are
non-empty text. -/
def Store.TextNonEmpty (db : Store) : Prop :=
  ∀ e ∈ db.exercises, e.name ≠ "" ∧ e.muscle_group ≠ ""

instance Store.TextNonEmpty.decidable (db : Store) : Decidable db.TextNonEmpty :=
  inferInstanceAs (Decidable (∀ e ∈ db.exercises, e.name ≠ "" ∧ e.muscle_group ≠ ""))

/-- A database holding two exercises and no progress entry. -/
def twoExercises : Store :=
  ⟨[⟨1, "Bench Press", "Chest"⟩, ⟨2, "Squat", "Legs"⟩], [], 2, 0⟩

/-- Store states reachable from the empty database by `POST /api/exercises` and
`POST /api/progress` requests handled one after the other (the GET routes do not
change the store). -/
inductive Reachable : Store → Prop
  | init : Reachable emptyStore
  | exercise {db : Store} (body : ExerciseBody) :
      Reachable db → Reachable (addExercise db body).2
  | progress {db : Store} (body : ProgressBody) :
      Reachable db → Reachable (addProgress db body).2

/-- Each row is dated strictly later than the row that follows it. -/
def strictlyDescendingByDate : List ProgressRow → Bool
  | a :: b :: rest => decide (textLt b.date a.date) && strictlyDescendingByDate (b :: rest)
  | _ => true

/-- The database after adding Bench Press and Squat and recording one entry for each
of them on the same day. -/
def sameDayStore : Store :=
  (addProgress
    (addProgress
      (addExercise (addExercise emptyStore ⟨some "Bench Press", some "Chest"⟩).2
        ⟨some "Squat", some "Legs"⟩).2
      ⟨some 1, some 135, some "2024-06-01"⟩).2
    ⟨some 2, some 225, some "2024-06-01"⟩).2

/-! ## Request routing -/

/-- A request to one of the seven API routes of `app.js`. -/
inductive Request where
  | getExercises
  | getExercisesByMuscleGroup (group : String)
  | postExercise (body : ExerciseBody)
  | getProgress
  | getProgressForExercise (id : Int)
  | getProgressByMuscleGroup (group : String)
  | postProgress (body : ProgressBody)
deriving DecidableEq, Repr

/-- What a route answers. -/
inductive Reply where
  | exercises (res : Response (List Exercise))
  | exerciseCreated (res : Response ExerciseCreated)
  | progress (res : Response (List ProgressRow))
  | progressCreated (res : Response ProgressCreated)
deriving DecidableEq, Repr

/-- Route table of `app.js`: the answer to a request and the store it leaves.  The
five GET handlers only run a `SELECT`. -/
def serve (db : Store) : Request → Reply × Store
  | .getExercises => (.exercises (listExercises db), db)
  | .getExercisesByMuscleGroup group => (.exercises (listExercisesByMuscleGroup db group), db)
  | .postExercise body => ((addExercise db body).map Reply.exerciseCreated id)
  | .getProgress => (.progress (listProgress db), db)
  | .getProgressForExercise id => (.progress (listProgressForExercise db id), db)
  | .getProgressByMuscleGroup group => (.progress (listProgressByMuscleGroup db group), db)
  | .postProgress body => ((addProgress db body).map Reply.progressCreated id)

/-- The store left by a sequence of requests handled one after the other. -/
def serveAll (db : Store) (requests : List Request) : Store :=
  requests.foldl (fun db request => (serve db request).2) db

/-- The request is one of the five GET routes. -/
def Request.isGet : Request → Bool
  | .postExercise _ => false
  | .postProgress _ => false
  | _ => true

/-- A session: two exercises added, a duplicate refused, two entries recorded. -/
def sampleRequests : List Request :=
  [.postExercise ⟨some "Bench Press", some "Chest"⟩,
   .postExercise ⟨some "Squat", some "Legs"⟩,
   .postExercise ⟨some "Squat", some "Legs"⟩,
   .postProgress ⟨some 1, some 135, some "2024-06-01"⟩,
   .getProgress,
   .postProgress ⟨some 2, some 225, some "2024-06-01"⟩]

/-! ## Client: dates (ECMAScript time values, milliseconds since 1970-01-01T00:00Z) -/

/-- Milliseconds in a day. -/
def msPerDay : Int := 86400000

/-- Day number of a time value: `Day(t) = floor(t / msPerDay)`. -/
def day (t : Int) : Int := t / msPerDay

/-- Milliseconds since the start of the day: `TimeWithinDay(t) = t modulo msPerDay`. -/
def timeWithinDay (t : Int) : Int := t % msPerDay

/-- Number of days of year `y` (Gregorian leap-year rule). -/
def daysInYear (y : Int) : Int :=
  if y % 4 ≠ 0 then 365 else if y % 100 ≠ 0 then 366 else if y % 400 ≠ 0 then 365 else 366

/-- Day number of the first day of year `y`. -/
def dayFromYear (y : Int) : Int :=
  365 * (y - 1970) + (y - 1969) / 4 - (y - 1901) / 100 + (y - 1601) / 400

/-- Year of a day number: the largest `y` with `dayFromYear y ≤ d`, found from the
mean year length and corrected by at most one. -/
def yearFromDay (d : Int) : Int :=
  let y := 1970 + d * 400 / 146097
  if d < dayFromYear y then y - 1 else if dayFromYear (y + 1) ≤ d then y + 1 else y

/-- Year of a time value: `YearFromTime(t)`. -/
def yearFromTime (t : Int) : Int := yearFromDay (day t)

/-- One in a leap year, zero otherwise: `InLeapYear`. -/
def inLeapYear (y : Int) : Int := if daysInYear y = 366 then 1 else 0

/-- Day within the year, from 0: `DayWithinYear(t)`. -/
def dayWithinYear (t : Int) : Int := day t - dayFromYear (yearFromTime t)

/-- Number of days of the year before month `m` (0 is January). -/
def daysBeforeMonth (m : Int) (leap : Int) : Int :=
  if m ≤ 0 then 0 else if m = 1 then 31 else if m = 2 then 59 + leap
  else if m = 3 then 90 + leap else if m = 4 then 120 + leap else if m = 5 then 151 + leap
  else if m = 6 then 181 + leap else if m = 7 then 212 + leap else if m = 8 then 243 + leap
  else if m = 9 then 273 + leap else if m = 10 then 304 + leap else 334 + leap

/-- Month of a time value, 0 for January to 11 for December: `MonthFromTime(t)`. -/
def monthFromTime (t : Int) : Int :=
  let d := dayWithinYear t
  let leap := inLeapYear (yearFromTime t)
  if d < 31 then 0 else if d < 59 + leap then 1 else if d < 90 + leap then 2
  else if d < 120 + leap then 3 else if d < 151 + leap then 4 else if d < 181 + leap then 5
  else if d < 212 + leap then 6 else if d < 243 + leap then 7 else if d < 273 + leap then 8
  else if d < 304 + leap then 9 else if d < 334 + leap then 10 else 11

/-- Day of the month, from 1: `DateFromTime(t)`. -/
def dateFromTime (t : Int) : Int :=
  dayWithinYear t - daysBeforeMonth (monthFromTime t) (inLeapYear (yearFromTime t)) + 1

/-- Day number of day `date` of month `month` of `year`, where `month` may lie outside
0 to 11 and `date` outside the month: `MakeDay(year, month, date)`. -/
def makeDay (year month date : Int) : Int :=
  let ym := year + month / 12
  let mn := month % 12
  dayFromYear ym + daysBeforeMonth mn (inLeapYear ym) + date - 1

/-- Time value of a day number and a time within the day: `MakeDate(day, time)`. -/
def makeDate (day time : Int) : Int := day * msPerDay + time

/-- Result of `Date.prototype.getMonth` on a date of time value `t`, in a zone whose
local time is `t + localTZA`. -/
def getMonth (localTZA t : Int) : Int := monthFromTime (t + localTZA)

/-- Time value left by `Date.prototype.setMonth(month)` on a date of time value `t`:
year, day of month and time of day are kept in local time. -/
def setMonth (localTZA t month : Int) : Int :=
  let localTime := t + localTZA
  makeDate (makeDay (yearFromTime localTime) month (dateFromTime localTime))
    (timeWithinDay localTime) - localTZA

/-- Value of a decimal digit character. -/
def digit? (c : Char) : Option Int :=
  if '0' ≤ c ∧ c ≤ '9' then some (c.toNat - '0'.toNat : Nat) else none

/-- Value of a non-empty string of decimal digits. -/
def digits? : List Char → Option Int
  | [] => none
  | cs => cs.foldl (fun acc c => do let n ← acc; let k ← digit? c; pure (n * 10 + k)) (some 0)

/-- Number of days of month `m` (0 is January) in year `y`. -/
def daysInMonth (y m : Int) : Int :=
  if m = 1 then 28 + inLeapYear y
  else if m = 3 ∨ m = 5 ∨ m = 8 ∨ m = 10 then 30 else 31

/-- Time value that ECMAScript fixes for a date-only string `YYYY-MM-DD` whose month
and day are in range: midnight UTC of that calendar date.  `none` only says that the
string is not of this form; it says nothing about what `new Date` makes of it. -/
def isoDateOnly (s : String) : Option Int :=
  match s.toList with
  | [y1, y2, y3, y4, '-', m1, m2, '-', d1, d2] =>
    match digits? [y1, y2, y3, y4], digits? [m1, m2], digits? [d1, d2] with
    | some y, some m, some d =>
      if 1 ≤ m ∧ m ≤ 12 ∧ 1 ≤ d ∧ d ≤ daysInMonth y (m - 1) then
        some (makeDate (makeDay y (m - 1) d) 0)
      else none
    | _, _, _ => none
  | _ => none

/-- A parser `dateParse`, giving the time value of `new Date(s)` or `none` for an
Invalid Date, reads date-only strings as ECMAScript prescribes.  Every engine does;
on other strings engines differ. -/
def ParsesIsoDates (dateParse : String → Option Int) : Prop :=
  ∀ s t, isoDateOnly s = some t → dateParse s = some t

/-- Predicate of the filter, `new Date(entry.date) >= cutoffDate`, with `dateParse` the
engine's parser: a comparison with an Invalid Date is false. -/
def notBeforeCutoff (dateParse : String → Option Int) (cutoffDate : Int)
    (entry : ProgressRow) : Bool :=
  match dateParse entry.date with
  | some entryDate => decide (cutoffDate ≤ entryDate)
  | none => false

/-- The function `filterDataByTimeRange(data, timeRange)` of `main.js`, run in an
engine whose `new Date(string)` is `dateParse`, at the instant `now` (the value of
`new Date()`), in a zone of constant offset `localTZA`. -/
def filterDataByTimeRange (dateParse : String → Option Int) (localTZA now : Int)
    (data : List ProgressRow) (timeRange : String) : List ProgressRow :=
  if timeRange = "last-month" then
    data.filter
      (notBeforeCutoff dateParse (setMonth localTZA now (getMonth localTZA now - 1)))
  else if timeRange = "last-3-months" then
    data.filter
      (notBeforeCutoff dateParse (setMonth localTZA now (getMonth localTZA now - 3)))
  else if timeRange = "last-6-months" then
    data.filter
      (notBeforeCutoff dateParse (setMonth localTZA now (getMonth localTZA now - 6)))
  else
    data

/-! ## Client: recent-progress table and chart -/

/-- Row of the table body `progress-table-body`. -/
inductive ProgressTableRow where
  | notice (text : String)
  | entry (exercise : String) (weight : Rat) (date : String)
deriving DecidableEq, Repr

/-- The function `updateProgressTable(progress)` of `main.js`.  The first argument is
the content of the element `progress-table-body`, `none` when the page has no such
element; the result is its content afterwards. -/
def updateProgressTable (progressTable : Option (List ProgressTableRow))
    (progress : List ProgressRow) : Option (List ProgressTableRow) :=
  match progressTable with
  | none => none
  | some _ =>
    if progress.length = 0 then
      some [.notice "No progress entries found. Add some progress to get started!"]
    else
      let recentProgress := progress.take 10
      some (recentProgress.map fun entry =>
        .entry (entry.exercise_name ++ " (" ++ entry.muscle_group ++ ")") entry.weight
          entry.date)

/-- Value of `exerciseData[key]` in `renderChart`. -/
structure ExerciseSeries where
  dates : List String
  weights : List Rat
deriving DecidableEq, Repr

/-- Key under which `renderChart` files an entry. -/
def chartKey (entry : ProgressRow) : String :=
  entry.exercise_name ++ " (" ++ entry.muscle_group ++ ")"

/-- One step of the grouping loop on the object `exerciseData`, kept as the list of
its properties in creation order (the order of `for ... in`; a key always contains
` (`, so it is neither an array index nor a property of `Object.prototype`): create
the series of `key` if there is none, then push the date and the weight. -/
def pushEntry (key date : String) (weight : Rat) :
    List (String × ExerciseSeries) → List (String × ExerciseSeries)
  | [] => [(key, ⟨[date], [weight]⟩)]
  | (k, series) :: rest =>
    if k = key then (k, ⟨series.dates ++ [date], series.weights ++ [weight]⟩) :: rest
    else (k, series) :: pushEntry key date weight rest

/-- The object `exerciseData` after `data.forEach(...)`. -/
def groupByExercise (data : List ProgressRow) : List (String × ExerciseSeries) :=
  data.foldl (fun exerciseData entry =>
    pushEntry (chartKey entry) entry.date entry.weight exerciseData) []

/-- One table of the rendered chart: its heading and its date and weight cells; a
cell read past the end of `weights` is `undefined`, here `none`. -/
structure ChartTable where
  title : String
  rows : List (String × Option Rat)
deriving DecidableEq, Repr

/-- Rows of one table: `for (let i = 0; i < dates.length; i++)` reads `dates[i]` and
`weights[i]`. -/
def seriesRows (series : ExerciseSeries) : List (String × Option Rat) :=
  (List.range series.dates.length).map fun i => (series.dates.getD i "", series.weights[i]?)

/-- The tables written by `renderChart(data)` into `chart-container`. -/
def renderChart (data : List ProgressRow) : List ChartTable :=
  (groupByExercise data).map fun exercise => ⟨exercise.1, seriesRows exercise.2⟩

/-! ## Client: tabs -/

/-- A `.tab-button` element: its `data-tab` attribute and whether its class list
holds `active`. -/
structure TabButton where
  dataTab : String
  active : Bool
deriving DecidableEq, Repr

/-- An element of the document that has an `id`: whether it has class `tab-content`
and whether its class list holds `active`. -/
structure Element where
  id : String
  tabContent : Bool
  active : Bool
deriving DecidableEq, Repr

/-- The part of the page the tab code works on: the `.tab-button` elements and the
elements carrying an `id`, both in document order. -/
structure Page where
  tabButtons : List TabButton
  elements : List Element
deriving DecidableEq, Repr

/-- Run `document.getElementById(tabId).classList.add('active')`: the first element
of that id becomes active; when there is none the call throws and nothing changes. -/
def activateById (tabId : String) : List Element → List Element
  | [] => []
  | el :: rest =>
    if el.id = tabId then { el with active := true } :: rest
    else el :: activateById tabId rest

/-- The click listener of the `i`-th tab button. -/
def clickTab (page : Page) (i : Nat) : Page :=
  match page.tabButtons[i]? with
  | none => page
  | some button =>
    let tabButtons := page.tabButtons.map fun btn => { btn with active := false }
    let elements := page.elements.map fun content =>
      if content.tabContent then { content with active := false } else content
    let tabButtons := tabButtons.set i { button with active := true }
    let tabId := button.dataTab
    ⟨tabButtons, activateById tabId elements⟩

/-- The page after `DOMContentLoaded`: `tabButtons[0].click()`. -/
def loadPage (page : Page) : Page := clickTab page 0

/-- The page after loading and then clicking the tab buttons of the given indices. -/
def clickTabs (page : Page) (clicks : List Nat) : Page :=
  clicks.foldl clickTab (loadPage page)

/-- The tab buttons and the elements with an `id` of `views/index.html`. -/
def indexPage : Page :=
  ⟨[⟨"add-exercise-tab", false⟩, ⟨"update-progress-tab", false⟩,
    ⟨"view-progress-tab", false⟩],
   [⟨"alerts", false, false⟩, ⟨"add-exercise-tab", true, false⟩,
    ⟨"add-exercise-form", false, false⟩, ⟨"exercise-name", false, false⟩,
    ⟨"muscle-group", false, false⟩, ⟨"exercises-table-body", false, false⟩,
    ⟨"update-progress-tab", true, false⟩, ⟨"add-progress-form", false, false⟩,
    ⟨"progress-exercise", false, false⟩, ⟨"weight", false, false⟩,
    ⟨"date", false, false⟩, ⟨"progress-table-body", false, false⟩,
    ⟨"view-progress-tab", true, false⟩, ⟨"chart-muscle-group", false, false⟩,
    ⟨"chart-exercise", false, false⟩, ⟨"chart-time-range", false, false⟩,
    ⟨"generate-chart", false, false⟩, ⟨"chart-container", false, false⟩]⟩

/-- Constraints on a page under which the tab code works as in `index.html`: there is
a tab button, ids are unique, and every `data-tab` is the id of a `.tab-content`. -/
def Page.WellFormed (page : Page) : Prop :=
  page.tabButtons ≠ [] ∧ (page.elements.map Element.id).Nodup ∧
    ∀ button ∈ page.tabButtons, ∃ el ∈ page.elements,
      el.id = button.dataTab ∧ el.tabContent = true

instance Page.WellFormed.decidable (page : Page) : Decidable page.WellFormed :=
  inferInstanceAs (Decidable (page.tabButtons ≠ [] ∧ (page.elements.map Element.id).Nodup ∧
    ∀ button ∈ page.tabButtons, ∃ el ∈ page.elements,
      el.id = button.dataTab ∧ el.tabContent = true))

/-- Three entries of one exercise, dated 2024-01-01, 2024-03-01 and 2024-05-01. -/
def threeEntries : List ProgressRow :=
  [⟨1, 1, "Bench Press", "Chest", 135, "2024-01-01"⟩,
   ⟨2, 1, "Bench Press", "Chest", 140, "2024-03-01"⟩,
   ⟨3, 1, "Bench Press", "Chest", 145, "2024-05-01"⟩]

/-- Twelve fetched entries. -/
def twelveEntries : List ProgressRow :=
  (List.range 12).map fun i => ⟨i + 1, 1, "Squat", "Legs", 100, "2024-06-01"⟩

/-! ## Requests in flight -/

/-- Where a `POST /api/exercises` request stands.  The handler is three callbacks, each
run to its end by the event loop before another one starts: the route handler, which
validates the body and issues `db.get`; the callback of `db.get`, which answers 400
or issues `db.run`; the callback of `db.run`, which answers 200. -/
inductive ExerciseTask where
  | received (body : ExerciseBody)
  | lookup (name muscle_group : String)
  | insert (name muscle_group : String)
  | answered (res : Response ExerciseCreated)
deriving DecidableEq, Repr

/-- Run the next callback of a request on the current store: for `lookup` the
`SELECT` is executed and its callback runs, for `insert` the `INSERT` is executed and
its callback runs. -/
def stepExercise (db : Store) : ExerciseTask → ExerciseTask × Store
  | .received body =>
    match truthyText body.name, truthyText body.muscle_group with
    | some name, some muscle_group => (.lookup name muscle_group, db)
    | _, _ => (.answered ⟨400, .error "Exercise name and muscle group are required"⟩, db)
  | .lookup name muscle_group =>
    match findExerciseByNameGroup db name muscle_group with
    | some _ => (.answered ⟨400, .error "Exercise already exists"⟩, db)
    | none => (.insert name muscle_group, db)
  | .insert name muscle_group =>
    let (lastID, db') := insertExercise db name muscle_group
    (.answered ⟨200, .json ⟨lastID, name, muscle_group, "Exercise added successfully"⟩⟩, db')
  | .answered res => (.answered res, db)

/-- Two requests in flight on one store; the schedule names, step by step, the request
whose next callback runs (`false` the first request, `true` the second). -/
def runTwo (db : Store) (first second : ExerciseTask) :
    List Bool → ExerciseTask × ExerciseTask × Store
  | [] => (first, second, db)
  | false :: schedule =>
    runTwo (stepExercise db first).2 (stepExercise db first).1 second schedule
  | true :: schedule =>
    runTwo (stepExercise db second).2 first (stepExercise db second).1 schedule

/-- The interleaving in which both lookups run before either insert. -/
def checksBeforeInserts : List Bool := [false, true, false, true, false, true]

/-- Day number of the first day of month `k` counted from January of year `y`; `k`
below zero counts back into the year before. -/
def monthStart (y k : Int) : Int := makeDay y k 1

/-! ## Text order and truthiness -/

theorem textLe_iff_le (a b : String) : textLe a b ↔ a ≤ b := by
  unfold textLe
  rw [← not_lt, ← not_lt, String.lt_iff_toList_lt]

theorem textLt_iff_lt (a b : String) : textLt a b ↔ a < b := by
  unfold textLt
  rw [String.lt_iff_toList_lt]

theorem truthyText_some {s : String} (h : s ≠ "") : truthyText (some s) = some s := by
  simp [truthyText, h]

theorem truthyText_none_of_empty_or_missing {v : Option String}
    (h : v = none ∨ v = some "") : truthyText v = none := by
  rcases h with h | h <;> subst h <;> simp [truthyText]

theorem perm_selectExercises (db : Store) : (selectExercises db).Perm db.exercises :=
  List.perm_insertionSort _ _

/-! ## Adding an exercise -/

/-- Claim C1: a pair of non-empty strings that no stored exercise carries is accepted
by `addExercise` with status 200 and the echoed fields, and the listing of the
resulting store holds exactly one exercise with that name and muscle group. -/
theorem addExercise_new_pair_listed_once (db : Store) (name muscle_group : String)
    (hname : name ≠ "") (hgroup : muscle_group ≠ "")
    (hnew : ∀ e ∈ db.exercises, ¬(e.name = name ∧ e.muscle_group = muscle_group)) :
    (∃ id, (addExercise db ⟨some name, some muscle_group⟩).1 =
        ⟨200, .json ⟨id, name, muscle_group, "Exercise added successfully"⟩⟩) ∧
      ∃ rows, listExercises (addExercise db ⟨some name, some muscle_group⟩).2 =
          ⟨200, .json rows⟩ ∧
        rows.countP (fun e => e.name = name ∧ e.muscle_group = muscle_group) = 1 := by
  have hfind : findExerciseByNameGroup db name muscle_group = none := by
    unfold findExerciseByNameGroup
    rw [List.find?_eq_none]
    intro e he
    simpa using hnew e he
  have hrun : addExercise db ⟨some name, some muscle_group⟩ =
      (⟨200, .json ⟨(insertExercise db name muscle_group).1, name, muscle_group,
        "Exercise added successfully"⟩⟩, (insertExercise db name muscle_group).2) := by
    simp [addExercise, truthyText_some hname, truthyText_some hgroup, hfind]
  refine ⟨⟨_, congrArg Prod.fst hrun⟩, selectExercises _, rfl, ?_⟩
  rw [hrun, (perm_selectExercises _).countP_eq]
  have hzero :
      db.exercises.countP (fun e => e.name = name ∧ e.muscle_group = muscle_group) = 0 := by
    rw [List.countP_eq_zero]
    intro e he
    simpa using hnew e he
  show List.countP _ (db.exercises ++ [_]) = 1
  rw [List.countP_append, hzero]
  simp [List.countP_cons]

/-- Witness of C1: adding Deadlift/Back to a store holding Bench Press and Squat. -/
theorem addExercise_new_pair_listed_once_witness :
    ("Deadlift" ≠ "" ∧ "Back" ≠ "" ∧
      ∀ e ∈ twoExercises.exercises, ¬(e.name = "Deadlift" ∧ e.muscle_group = "Back")) ∧
    ((∃ id, (addExercise twoExercises ⟨some "Deadlift", some "Back"⟩).1 =
        ⟨200, .json ⟨id, "Deadlift", "Back", "Exercise added successfully"⟩⟩) ∧
      ∃ rows, listExercises (addExercise twoExercises ⟨some "Deadlift", some "Back"⟩).2 =
          ⟨200, .json rows⟩ ∧
        rows.countP (fun e => e.name = "Deadlift" ∧ e.muscle_group = "Back") = 1) :=
  ⟨⟨by decide, by decide, by decide⟩,
    addExercise_new_pair_listed_once twoExercises "Deadlift" "Back"
      (by decide) (by decide) (by decide)⟩

/-- Claim C2: when the store (whose exercises carry non-empty text, as the data model
requires) already holds the pair, `addExercise` answers 400 with
`Exercise already exists` and returns the store unchanged, so the number of stored
exercises is the same. -/
theorem addExercise_existing_pair_conflict (db : Store) (name muscle_group : String)
    (hdb : db.TextNonEmpty)
    (hdup : ∃ e ∈ db.exercises, e.name = name ∧ e.muscle_group = muscle_group) :
    addExercise db ⟨some name, some muscle_group⟩ =
        (⟨400, .error "Exercise already exists"⟩, db) ∧
      (addExercise db ⟨some name, some muscle_group⟩).2.exercises.length =
        db.exercises.length := by
  obtain ⟨e, he, hn, hg⟩ := hdup
  have hname : name ≠ "" := hn ▸ (hdb e he).1
  have hgroup : muscle_group ≠ "" := hg ▸ (hdb e he).2
  have hfind : ∃ row, findExerciseByNameGroup db name muscle_group = some row := by
    cases hrow : findExerciseByNameGroup db name muscle_group with
    | some row => exact ⟨row, rfl⟩
    | none =>
      unfold findExerciseByNameGroup at hrow
      rw [List.find?_eq_none] at hrow
      exact absurd (by simp [hn, hg]) (hrow e he)
  obtain ⟨row, hrow⟩ := hfind
  have hrun : addExercise db ⟨some name, some muscle_group⟩ =
      (⟨400, .error "Exercise already exists"⟩, db) := by
    simp [addExercise, truthyText_some hname, truthyText_some hgroup, hrow]
  exact ⟨hrun, by rw [hrun]⟩

/-- Witness of C2: posting Squat/Legs again. -/
theorem addExercise_existing_pair_conflict_witness :
    (twoExercises.TextNonEmpty ∧
      ∃ e ∈ twoExercises.exercises, e.name = "Squat" ∧ e.muscle_group = "Legs") ∧
    (addExercise twoExercises ⟨some "Squat", some "Legs"⟩ =
        (⟨400, .error "Exercise already exists"⟩, twoExercises) ∧
      (addExercise twoExercises ⟨some "Squat", some "Legs"⟩).2.exercises.length =
        twoExercises.exercises.length) :=
  ⟨⟨by decide, by decide⟩,
    addExercise_existing_pair_conflict twoExercises "Squat" "Legs" (by decide) (by decide)⟩

/-- Claim C3: when `name` or `muscle_group` is missing or the empty string,
`addExercise` answers 400 with `Exercise name and muscle group are required` and
returns the store it was given. -/
theorem addExercise_empty_or_missing_rejected (db : Store) (body : ExerciseBody)
    (h : (body.name = none ∨ body.name = some "") ∨
      (body.muscle_group = none ∨ body.muscle_group = some "")) :
    addExercise db body =
      (⟨400, .error "Exercise name and muscle group are required"⟩, db) := by
  rcases h with h | h
  · simp [addExercise, truthyText_none_of_empty_or_missing h]
  · have hg := truthyText_none_of_empty_or_missing h
    cases hn : truthyText body.name <;> simp [addExercise, hn, hg]

/-- Witness of C3: a body whose `muscle_group` is the empty string. -/
theorem addExercise_empty_or_missing_rejected_witness :
    (((some "Curl" : Option String) = none ∨ (some "Curl" : Option String) = some "") ∨
      ((some "" : Option String) = none ∨ (some "" : Option String) = some "")) ∧
    addExercise twoExercises ⟨some "Curl", some ""⟩ =
      (⟨400, .error "Exercise name and muscle group are required"⟩, twoExercises) :=
  ⟨by decide, addExercise_empty_or_missing_rejected twoExercises ⟨some "Curl", some ""⟩
    (by decide)⟩

/-! ## Recording progress -/

theorem textLe_total (a b : String) : textLe a b ∨ textLe b a :=
  le_total a.toList b.toList

theorem textLe_trans {a b c : String} (hab : textLe a b) (hbc : textLe b c) : textLe a c :=
  le_trans (α := List Char) hab hbc

theorem truthyInt_some {n : Int} (h : n ≠ 0) : truthyInt (some n) = some n := by
  simp [truthyInt, h]

theorem truthyNumber_some {w : Rat} (h : w ≠ 0) : truthyNumber (some w) = some w := by
  simp [truthyNumber, h]

theorem byDate_sorted (l : List ProgressRow) :
    (l.insertionSort byDate).Pairwise fun a b => textLe a.date b.date :=
  @List.sorted_insertionSort _ byDate _ ⟨fun a b => textLe_total a.date b.date⟩
    ⟨fun _ _ _ hab hbc => textLe_trans hab hbc⟩ l

theorem byDateDesc_sorted (l : List ProgressRow) :
    (l.insertionSort byDateDesc).Pairwise fun a b => textLe b.date a.date :=
  @List.sorted_insertionSort _ byDateDesc _ ⟨fun a b => textLe_total b.date a.date⟩
    ⟨fun _ _ _ hab hbc => textLe_trans hbc hab⟩ l

theorem mem_joinProgress {db : Store} {r : ProgressRow} :
    r ∈ joinProgress db ↔ ∃ p ∈ db.progress, ∃ e ∈ db.exercises, p.exercise_id = e.id ∧
      r = ⟨p.id, p.exercise_id, e.name, e.muscle_group, p.weight, p.date⟩ := by
  simp only [joinProgress, List.mem_flatMap, List.mem_map, List.mem_filter, decide_eq_true_eq]
  constructor
  · rintro ⟨p, hp, e, ⟨he, hpe⟩, rfl⟩
    exact ⟨p, hp, e, he, hpe, rfl⟩
  · rintro ⟨p, hp, e, he, hpe, rfl⟩
    exact ⟨p, hp, e, ⟨he, hpe⟩, rfl⟩

theorem addProgress_of_falsy {db : Store} {body : ProgressBody}
    (h : truthyInt body.exercise_id = none ∨ truthyNumber body.weight = none ∨
      truthyText body.date = none) :
    addProgress db body =
      (⟨400, .error "Exercise ID, weight, and date are required"⟩, db) := by
  unfold addProgress
  rcases h with h | h | h
  · rw [h]
  · rw [h]
    cases truthyInt body.exercise_id <;> rfl
  · rw [h]
    cases truthyInt body.exercise_id <;> cases truthyNumber body.weight <;> rfl

theorem addProgress_of_truthy (db : Store) {exercise_id : Int} {weight : Rat} {date : String}
    (hid : exercise_id ≠ 0) (hw : weight ≠ 0) (hd : date ≠ "") :
    addProgress db ⟨some exercise_id, some weight, some date⟩ =
      match findExerciseById db exercise_id with
      | none => (⟨400, .error "Exercise does not exist"⟩, db)
      | some _ =>
        (⟨200, .json ⟨(insertProgress db exercise_id weight date).1, exercise_id, weight, date,
          "Progress added successfully"⟩⟩, (insertProgress db exercise_id weight date).2) := by
  simp only [addProgress, truthyInt_some hid, truthyNumber_some hw, truthyText_some hd]

theorem findExerciseById_eq_none {db : Store} {x : Int} :
    findExerciseById db x = none ↔ ∀ e ∈ db.exercises, e.id ≠ x := by
  simp [findExerciseById, List.find?_eq_none]

/-- Claim C6: when `exercise_id`, `weight` or `date` is missing, `addProgress`
answers 400 with `Exercise ID, weight, and date are required` and returns the store
it was given; the response is the same on every store, so it does not depend on
whether the exercise exists. -/
theorem addProgress_missing_field_rejected (db : Store) (body : ProgressBody)
    (h : body.exercise_id = none ∨ body.weight = none ∨ body.date = none) :
    addProgress db body =
        (⟨400, .error "Exercise ID, weight, and date are required"⟩, db) ∧
      ∀ other : Store, (addProgress other body).1 = (addProgress db body).1 := by
  have hfalsy : truthyInt body.exercise_id = none ∨ truthyNumber body.weight = none ∨
      truthyText body.date = none := by
    rcases h with h | h | h
    · exact Or.inl (by rw [h]; rfl)
    · exact Or.inr (Or.inl (by rw [h]; rfl))
    · exact Or.inr (Or.inr (by rw [h]; rfl))
  refine ⟨addProgress_of_falsy hfalsy, fun other => ?_⟩
  rw [addProgress_of_falsy hfalsy, addProgress_of_falsy hfalsy]

/-- Witness of C6: a body without `weight`, for an exercise that is stored. -/
theorem addProgress_missing_field_rejected_witness :
    ((some 1 : Option Int) = none ∨ (none : Option Rat) = none ∨
      (some "2024-06-01" : Option String) = none) ∧
    (addProgress twoExercises ⟨some 1, none, some "2024-06-01"⟩ =
        (⟨400, .error "Exercise ID, weight, and date are required"⟩, twoExercises) ∧
      ∀ other : Store, (addProgress other ⟨some 1, none, some "2024-06-01"⟩).1 =
        (addProgress twoExercises ⟨some 1, none, some "2024-06-01"⟩).1) :=
  ⟨by decide, addProgress_missing_field_rejected twoExercises
    ⟨some 1, none, some "2024-06-01"⟩ (by decide)⟩

/-- Claim C4, amended: a request whose `exercise_id` is the id of no stored exercise
is answered 400 and leaves both tables as they were; the error is
`Exercise does not exist` when `exercise_id` and `weight` are non-zero numbers and
`date` is a non-empty string. -/
theorem addProgress_unknown_exercise_rejected (db : Store) (body : ProgressBody)
    (hunknown : ∀ e ∈ db.exercises, body.exercise_id ≠ some e.id) :
    (addProgress db body).1.status = 400 ∧
      (addProgress db body).2 = db ∧
      ∀ exercise_id weight date, body = ⟨some exercise_id, some weight, some date⟩ →
        exercise_id ≠ 0 → weight ≠ 0 → date ≠ "" →
        (addProgress db body).1 = ⟨400, .error "Exercise does not exist"⟩ := by
  have hkey : ∀ exercise_id weight date, body = ⟨some exercise_id, some weight, some date⟩ →
      exercise_id ≠ 0 → weight ≠ 0 → date ≠ "" →
      addProgress db body = (⟨400, .error "Exercise does not exist"⟩, db) := by
    intro x w d hb hx hw hd
    subst hb
    have hnone : findExerciseById db x = none :=
      findExerciseById_eq_none.2 fun e he hex => hunknown e he (by simp [hex])
    rw [addProgress_of_truthy db hx hw hd, hnone]
  by_cases hf : truthyInt body.exercise_id = none ∨ truthyNumber body.weight = none ∨
      truthyText body.date = none
  · refine ⟨by rw [addProgress_of_falsy hf], by rw [addProgress_of_falsy hf], ?_⟩
    intro x w d hb hx hw hd
    rw [hkey x w d hb hx hw hd]
  · obtain ⟨x, w, d⟩ := body
    cases x with
    | none => exact absurd (Or.inl rfl) hf
    | some x =>
      cases w with
      | none => exact absurd (Or.inr (Or.inl rfl)) hf
      | some w =>
        cases d with
        | none => exact absurd (Or.inr (Or.inr rfl)) hf
        | some d =>
          have hx : x ≠ 0 := fun h0 => hf (Or.inl (by simp [truthyInt, h0]))
          have hw : w ≠ 0 := fun h0 => hf (Or.inr (Or.inl (by simp [truthyNumber, h0])))
          have hd : d ≠ "" := fun h0 => hf (Or.inr (Or.inr (by simp [truthyText, h0])))
          refine ⟨by rw [hkey x w d rfl hx hw hd], by rw [hkey x w d rfl hx hw hd], ?_⟩
          intro x2 w2 d2 hb hx2 hw2 hd2
          rw [hkey x2 w2 d2 hb hx2 hw2 hd2]

/-- Witness of C4 (amended): exercise 7 is not stored. -/
theorem addProgress_unknown_exercise_rejected_witness :
    (∀ e ∈ twoExercises.exercises, (some 7 : Option Int) ≠ some e.id) ∧
    addProgress twoExercises ⟨some 7, some 135, some "2024-06-01"⟩ =
      (⟨400, .error "Exercise does not exist"⟩, twoExercises) :=
  ⟨by decide,
    Prod.ext
      ((addProgress_unknown_exercise_rejected twoExercises
        ⟨some 7, some 135, some "2024-06-01"⟩ (by decide)).2.2 7 135 "2024-06-01" rfl
          (by decide) (by decide) (by decide))
      (addProgress_unknown_exercise_rejected twoExercises
        ⟨some 7, some 135, some "2024-06-01"⟩ (by decide)).2.1⟩

theorem findExerciseById_isSome {db : Store} {x : Int}
    (h : ∃ e ∈ db.exercises, e.id = x) : ∃ row, findExerciseById db x = some row := by
  cases hrow : findExerciseById db x with
  | some row => exact ⟨row, rfl⟩
  | none =>
    obtain ⟨e, he, hex⟩ := h
    exact absurd hex (findExerciseById_eq_none.1 hrow e he)

/-- What `addProgress` does for the requests it accepts: with a non-zero `exercise_id`
that is the id of a stored exercise, a non-zero `weight` (negative allowed) and a
non-empty `date`, it answers 200 with the echoed fields, appends the entry to
`progress`, and the listing for that exercise then holds the new entry and is in
non-decreasing date order. -/
theorem addProgress_valid_then_listed (db : Store) (exercise_id : Int) (weight : Rat)
    (date : String) (hid : exercise_id ≠ 0) (hw : weight ≠ 0) (hd : date ≠ "")
    (hex : ∃ e ∈ db.exercises, e.id = exercise_id) :
    ∃ id,
      (addProgress db ⟨some exercise_id, some weight, some date⟩).1 =
        ⟨200, .json ⟨id, exercise_id, weight, date, "Progress added successfully"⟩⟩ ∧
      (addProgress db ⟨some exercise_id, some weight, some date⟩).2.exercises =
        db.exercises ∧
      (addProgress db ⟨some exercise_id, some weight, some date⟩).2.progress =
        db.progress ++ [⟨id, exercise_id, weight, date⟩] ∧
      ∃ rows,
        listProgressForExercise (addProgress db ⟨some exercise_id, some weight, some date⟩).2
          exercise_id = ⟨200, .json rows⟩ ∧
        (∃ r ∈ rows, r.id = id ∧ r.exercise_id = exercise_id ∧ r.weight = weight ∧
          r.date = date) ∧
        rows.Pairwise fun a b => textLe a.date b.date := by
  obtain ⟨row, hrow⟩ := findExerciseById_isSome hex
  have hrun := addProgress_of_truthy db hid hw hd
  rw [hrow] at hrun
  obtain ⟨e, he, hee⟩ := hex
  refine ⟨(insertProgress db exercise_id weight date).1, by rw [hrun], by rw [hrun]; rfl,
    by rw [hrun]; rfl, selectProgressForExercise _ exercise_id, rfl, ?_, byDate_sorted _⟩
  refine ⟨⟨(insertProgress db exercise_id weight date).1, exercise_id, e.name, e.muscle_group,
    weight, date⟩, ?_, rfl, rfl, rfl, rfl⟩
  rw [hrun]
  unfold selectProgressForExercise
  rw [List.mem_insertionSort, List.mem_filter]
  refine ⟨mem_joinProgress.2 ⟨⟨(insertProgress db exercise_id weight date).1, exercise_id,
    weight, date⟩, ?_, e, he, hee.symm, rfl⟩, by simp⟩
  simp [insertProgress]

/-- An accepted request: 135 recorded for exercise 1 on 2024-06-01. -/
theorem addProgress_valid_then_listed_witness :
    ((1 : Int) ≠ 0 ∧ (135 : Rat) ≠ 0 ∧ "2024-06-01" ≠ "" ∧
      ∃ e ∈ twoExercises.exercises, e.id = 1) ∧
    ∃ id,
      (addProgress twoExercises ⟨some 1, some 135, some "2024-06-01"⟩).1 =
        ⟨200, .json ⟨id, 1, 135, "2024-06-01", "Progress added successfully"⟩⟩ ∧
      (addProgress twoExercises ⟨some 1, some 135, some "2024-06-01"⟩).2.exercises =
        twoExercises.exercises ∧
      (addProgress twoExercises ⟨some 1, some 135, some "2024-06-01"⟩).2.progress =
        twoExercises.progress ++ [⟨id, 1, 135, "2024-06-01"⟩] ∧
      ∃ rows,
        listProgressForExercise
          (addProgress twoExercises ⟨some 1, some 135, some "2024-06-01"⟩).2 1 =
            ⟨200, .json rows⟩ ∧
        (∃ r ∈ rows, r.id = id ∧ r.exercise_id = 1 ∧ r.weight = 135 ∧
          r.date = "2024-06-01") ∧
        rows.Pairwise fun a b => textLe a.date b.date :=
  ⟨⟨by decide, by decide, by decide, by decide⟩,
    addProgress_valid_then_listed twoExercises 1 135 "2024-06-01"
      (by decide) (by decide) (by decide) (by decide)⟩

/-- Claim C7, amended: on every store `listProgress` is in non-increasing date
order: each row is dated no earlier than every row after it. -/
theorem listProgress_descending (db : Store) :
    ∃ rows, listProgress db = ⟨200, .json rows⟩ ∧
      rows.Pairwise fun a b => textLe b.date a.date :=
  ⟨selectProgress db, rfl, byDateDesc_sorted _⟩

/-- Claim C7, counterexample: after two entries recorded on the same day for two
exercises, `listProgress` returns two rows of equal date, which is not a strictly
descending order. -/
theorem listProgress_same_date_counterexample :
    Reachable sameDayStore ∧
      listProgress sameDayStore = ⟨200, .json
        [⟨1, 1, "Bench Press", "Chest", 135, "2024-06-01"⟩,
         ⟨2, 2, "Squat", "Legs", 225, "2024-06-01"⟩]⟩ ∧
      strictlyDescendingByDate
        [⟨1, 1, "Bench Press", "Chest", 135, "2024-06-01"⟩,
         ⟨2, 2, "Squat", "Legs", 225, "2024-06-01"⟩] = false :=
  ⟨.progress _ (.progress _ (.exercise _ (.exercise _ .init))), by decide, by decide⟩

/-- Claim C4, counterexample: `exercise_id` 0 is the id of no stored exercise and
`weight` and `date` are present, yet the error is the required-fields one. -/
theorem addProgress_falsy_id_counterexample :
    (∀ e ∈ twoExercises.exercises, e.id ≠ 0) ∧
      (addProgress twoExercises ⟨some 0, some 135, some "2024-06-01"⟩).1 =
        ⟨400, .error "Exercise ID, weight, and date are required"⟩ ∧
      (addProgress twoExercises ⟨some 0, some 135, some "2024-06-01"⟩).1 ≠
        ⟨400, .error "Exercise does not exist"⟩ := by
  decide

/-- Claim C5, at the failing input: all three fields are provided and exercise 1 is
stored, but with `weight` 0, which the page's weight field admits, the request is
answered 400 `Exercise ID, weight, and date are required` and nothing is inserted,
where the claim has it succeed and be listed. -/
theorem addProgress_zero_weight_refused :
    (∃ e ∈ twoExercises.exercises, e.id = 1) ∧
      addProgress twoExercises ⟨some 1, some 0, some "2024-06-01"⟩ =
        (⟨400, .error "Exercise ID, weight, and date are required"⟩, twoExercises) ∧
      listProgressForExercise
          (addProgress twoExercises ⟨some 1, some 0, some "2024-06-01"⟩).2 1 =
        ⟨200, .json []⟩ := by
  decide

/-! ## Listings -/

theorem lexText_total (g₁ n₁ g₂ n₂ : String) :
    (textLt g₁ g₂ ∨ (g₁ = g₂ ∧ textLe n₁ n₂)) ∨ (textLt g₂ g₁ ∨ (g₂ = g₁ ∧ textLe n₂ n₁)) := by
  rcases lt_trichotomy g₁.toList g₂.toList with h | h | h
  · exact Or.inl (Or.inl h)
  · have hg : g₁ = g₂ := String.toList_inj.1 h
    rcases textLe_total n₁ n₂ with hn | hn
    · exact Or.inl (Or.inr ⟨hg, hn⟩)
    · exact Or.inr (Or.inr ⟨hg.symm, hn⟩)
  · exact Or.inr (Or.inl h)

theorem lexText_trans {g₁ n₁ g₂ n₂ g₃ n₃ : String}
    (h₁₂ : textLt g₁ g₂ ∨ (g₁ = g₂ ∧ textLe n₁ n₂))
    (h₂₃ : textLt g₂ g₃ ∨ (g₂ = g₃ ∧ textLe n₂ n₃)) :
    textLt g₁ g₃ ∨ (g₁ = g₃ ∧ textLe n₁ n₃) := by
  rcases h₁₂ with h | ⟨rfl, hn⟩
  · rcases h₂₃ with h2 | ⟨rfl, _⟩
    · exact Or.inl (lt_trans (α := List Char) h h2)
    · exact Or.inl h
  · rcases h₂₃ with h2 | ⟨rfl, hn2⟩
    · exact Or.inl h2
    · exact Or.inr ⟨rfl, textLe_trans hn hn2⟩

theorem byMuscleGroupThenName_sorted (l : List Exercise) :
    (l.insertionSort byMuscleGroupThenName).Pairwise fun a b =>
      textLt a.muscle_group b.muscle_group ∨
        (a.muscle_group = b.muscle_group ∧ textLe a.name b.name) :=
  @List.sorted_insertionSort _ byMuscleGroupThenName _
    ⟨fun a b => lexText_total a.muscle_group a.name b.muscle_group b.name⟩
    ⟨fun _ _ _ hab hbc => lexText_trans hab hbc⟩ l

theorem byName_sorted (l : List Exercise) :
    (l.insertionSort byName).Pairwise fun a b => textLe a.name b.name :=
  @List.sorted_insertionSort _ byName _ ⟨fun a b => textLe_total a.name b.name⟩
    ⟨fun _ _ _ hab hbc => textLe_trans hab hbc⟩ l

theorem byExerciseNameThenDate_sorted (l : List ProgressRow) :
    (l.insertionSort byExerciseNameThenDate).Pairwise fun a b =>
      textLt a.exercise_name b.exercise_name ∨
        (a.exercise_name = b.exercise_name ∧ textLe a.date b.date) :=
  @List.sorted_insertionSort _ byExerciseNameThenDate _
    ⟨fun a b => lexText_total a.exercise_name a.date b.exercise_name b.date⟩
    ⟨fun _ _ _ hab hbc => lexText_trans hab hbc⟩ l

/-- Claim C8: `listExercises` answers 200 with a permutation of the stored exercises
that is sorted by `muscle_group` and, among equal `muscle_group`, by `name`. -/
theorem listExercises_sorted_perm (db : Store) :
    ∃ rows, listExercises db = ⟨200, .json rows⟩ ∧
      rows.Perm db.exercises ∧
      rows.Pairwise fun a b =>
        textLt a.muscle_group b.muscle_group ∨
          (a.muscle_group = b.muscle_group ∧ textLe a.name b.name) :=
  ⟨selectExercises db, rfl, perm_selectExercises db, byMuscleGroupThenName_sorted _⟩

/-- Claim C9: `listExercisesByMuscleGroup` answers 200 with a permutation of the
stored exercises whose `muscle_group` is exactly `group`, sorted by `name`; when no
stored exercise matches, the answer is still 200 and the list is empty. -/
theorem listExercisesByMuscleGroup_filtered_sorted (db : Store) (group : String) :
    ∃ rows, listExercisesByMuscleGroup db group = ⟨200, .json rows⟩ ∧
      rows.Perm (db.exercises.filter fun e => e.muscle_group = group) ∧
      (rows.Pairwise fun a b => textLe a.name b.name) ∧
      ((∀ e ∈ db.exercises, e.muscle_group ≠ group) → rows = []) := by
  refine ⟨selectExercisesByMuscleGroup db group, rfl, List.perm_insertionSort _ _,
    byName_sorted _, fun hnone => ?_⟩
  have hfilter : (db.exercises.filter fun e => e.muscle_group = group) = [] := by
    rw [List.filter_eq_nil_iff]
    intro e he
    simpa using hnone e he
  unfold selectExercisesByMuscleGroup
  rw [hfilter]
  rfl

/-- Witness of C9: no stored exercise belongs to group Back. -/
theorem listExercisesByMuscleGroup_filtered_sorted_witness :
    (∀ e ∈ twoExercises.exercises, e.muscle_group ≠ "Back") ∧
    listExercisesByMuscleGroup twoExercises "Back" = ⟨200, .json []⟩ := by
  refine ⟨by decide, ?_⟩
  obtain ⟨rows, hresp, -, -, hempty⟩ :=
    listExercisesByMuscleGroup_filtered_sorted twoExercises "Back"
  rw [hresp, hempty (by decide)]

theorem join_rows_of_entry (exs : List Exercise) (hids : (exs.map Exercise.id).Nodup)
    (p : Progress) (group : String) :
    ((((exs.filter fun e => p.exercise_id = e.id).map fun e =>
        (⟨p.id, p.exercise_id, e.name, e.muscle_group, p.weight, p.date⟩ : ProgressRow)).filter
          fun r => r.muscle_group = group).map
            fun r => (⟨r.id, r.exercise_id, r.weight, r.date⟩ : Progress)) =
      if exs.any (fun e => p.exercise_id = e.id ∧ e.muscle_group = group) then [p] else [] := by
  induction exs with
  | nil => rfl
  | cons e rest ih =>
    rw [List.map_cons, List.nodup_cons] at hids
    obtain ⟨hfresh, hrest⟩ := hids
    specialize ih hrest
    by_cases hid : p.exercise_id = e.id
    · have hnomatch : (rest.filter fun e => p.exercise_id = e.id) = [] := by
        rw [List.filter_eq_nil_iff]
        intro e2 he2 h2
        exact hfresh (List.mem_map.2 ⟨e2, he2, by simpa using (by simpa using h2 : p.exercise_id = e2.id).symm.trans hid⟩)
      have hany : rest.any (fun e => p.exercise_id = e.id ∧ e.muscle_group = group) = false := by
        rw [List.any_eq_false]
        intro e2 he2 h2
        have h2id : p.exercise_id = e2.id := by simp at h2; exact h2.1
        exact hfresh (List.mem_map.2 ⟨e2, he2, h2id.symm.trans hid⟩)
      have hfilter : ((e :: rest).filter fun e => p.exercise_id = e.id) = [e] := by
        rw [List.filter_cons, if_pos (by simpa using hid), hnomatch]
      have hanyAll : (e :: rest).any (fun e => p.exercise_id = e.id ∧ e.muscle_group = group) =
          decide (e.muscle_group = group) := by
        rw [List.any_cons, hany, Bool.or_false]
        simp only [hid, true_and]
      rw [hfilter, hanyAll]
      by_cases hg : e.muscle_group = group
      · simp only [List.map_cons, List.map_nil, List.filter_cons, hg, decide_True, if_true,
          List.filter_nil]
      · simp only [List.map_cons, List.map_nil, List.filter_cons, hg, decide_False,
          Bool.false_eq_true, if_false, List.filter_nil]
    · simpa [List.filter_cons, hid] using ih

theorem join_filter_entries (db : Store) (hids : (db.exercises.map Exercise.id).Nodup)
    (group : String) :
    (((joinProgress db).filter fun r => r.muscle_group = group).map
        fun r => (⟨r.id, r.exercise_id, r.weight, r.date⟩ : Progress)) =
      db.progress.filter fun p =>
        db.exercises.any fun e => p.exercise_id = e.id ∧ e.muscle_group = group := by
  unfold joinProgress
  induction db.progress with
  | nil => rfl
  | cons p rest ih =>
    rw [List.flatMap_cons, List.filter_append, List.map_append, ih,
      join_rows_of_entry db.exercises hids p group, List.filter_cons]
    split <;> rfl

/-- Claim C10: `listProgressByMuscleGroup` answers 200 with rows that are exactly the
joins of a progress entry with a stored exercise of that id whose `muscle_group` is
`group`, carrying that exercise's name and muscle group; with `id` the primary key
of `exercises`, every such progress entry appears exactly once; the rows are sorted
by exercise name and, among equal names, by date ascending. -/
theorem listProgressByMuscleGroup_joined_sorted (db : Store) (group : String) :
    ∃ rows, listProgressByMuscleGroup db group = ⟨200, .json rows⟩ ∧
      (∀ r, r ∈ rows ↔ ∃ p ∈ db.progress, ∃ e ∈ db.exercises,
        p.exercise_id = e.id ∧ e.muscle_group = group ∧
          r = ⟨p.id, p.exercise_id, e.name, e.muscle_group, p.weight, p.date⟩) ∧
      ((db.exercises.map Exercise.id).Nodup →
        (rows.map fun r => (⟨r.id, r.exercise_id, r.weight, r.date⟩ : Progress)).Perm
          (db.progress.filter fun p =>
            db.exercises.any fun e => p.exercise_id = e.id ∧ e.muscle_group = group)) ∧
      rows.Pairwise fun a b =>
        textLt a.exercise_name b.exercise_name ∨
          (a.exercise_name = b.exercise_name ∧ textLe a.date b.date) := by
  refine ⟨selectProgressByMuscleGroup db group, rfl, fun r => ?_, fun hids => ?_,
    byExerciseNameThenDate_sorted _⟩
  · unfold selectProgressByMuscleGroup
    rw [List.mem_insertionSort, List.mem_filter, mem_joinProgress]
    constructor
    · rintro ⟨⟨p, hp, e, he, hpe, rfl⟩, hg⟩
      exact ⟨p, hp, e, he, hpe, by simpa using hg, rfl⟩
    · rintro ⟨p, hp, e, he, hpe, hg, rfl⟩
      exact ⟨⟨p, hp, e, he, hpe, rfl⟩, by simpa using hg⟩
  · rw [← join_filter_entries db hids group]
    exact (List.perm_insertionSort _ _).map _

/-- Witness of C10: the Chest entries of a store with a Chest and a Legs entry. -/
theorem listProgressByMuscleGroup_joined_sorted_witness :
    (sameDayStore.exercises.map Exercise.id).Nodup ∧
    ∃ rows, listProgressByMuscleGroup sameDayStore "Chest" = ⟨200, .json rows⟩ ∧
      (rows.map fun r => (⟨r.id, r.exercise_id, r.weight, r.date⟩ : Progress)).Perm
        (sameDayStore.progress.filter fun p =>
          sameDayStore.exercises.any fun e =>
            p.exercise_id = e.id ∧ e.muscle_group = "Chest") := by
  refine ⟨by decide, ?_⟩
  obtain ⟨rows, hresp, -, hperm, -⟩ :=
    listProgressByMuscleGroup_joined_sorted sameDayStore "Chest"
  exact ⟨rows, hresp, hperm (by decide)⟩

/-! ## Constraints kept by the handlers -/

/-- The store returned by `addExercise` is the given one, or the given one with one
exercise of non-empty name and group inserted after the lookup found no row. -/
theorem addExercise_store (db : Store) (body : ExerciseBody) :
    (addExercise db body).2 = db ∨
      ∃ name muscle_group, name ≠ "" ∧ muscle_group ≠ "" ∧
        findExerciseByNameGroup db name muscle_group = none ∧
        (addExercise db body).2 = (insertExercise db name muscle_group).2 := by
  obtain ⟨n, g⟩ := body
  cases n with
  | none => exact Or.inl rfl
  | some n =>
    cases g with
    | none => exact Or.inl (by simp [addExercise, truthyText])
    | some g =>
      by_cases hn : n = ""
      · exact Or.inl (by simp [addExercise, truthyText, hn])
      · by_cases hg : g = ""
        · exact Or.inl (by simp [addExercise, truthyText, hn, hg])
        · cases hfind : findExerciseByNameGroup db n g with
          | some row =>
            exact Or.inl (by simp [addExercise, truthyText_some hn, truthyText_some hg, hfind])
          | none =>
            exact Or.inr ⟨n, g, hn, hg, hfind,
              by simp [addExercise, truthyText_some hn, truthyText_some hg, hfind]⟩

/-- Table `exercises` is not written by `addProgress`. -/
theorem addProgress_exercises (db : Store) (body : ProgressBody) :
    (addProgress db body).2.exercises = db.exercises := by
  unfold addProgress
  split
  · split <;> rfl
  · rfl

/-- An AUTOINCREMENT rowid is larger than every rowid in the table. -/
theorem lt_nextRowid {ids : List Int} {i : Int} (seq : Int) (hi : i ∈ ids) :
    i < nextRowid ids seq := by
  have hle : ∀ l : List Int, i ∈ l → i ≤ l.foldr max (max seq 0) := by
    intro l
    induction l with
    | nil => intro h; cases h
    | cons a rest ih =>
      intro h
      rcases List.mem_cons.1 h with rfl | h
      · exact le_max_left _ _
      · exact le_trans (ih h) (le_max_right _ _)
  have := hle ids hi
  unfold nextRowid
  omega

/-- Every reachable store satisfies the text constraint of the data model. -/
theorem textNonEmpty_of_reachable {db : Store} (h : Reachable db) : db.TextNonEmpty := by
  induction h with
  | init => intro e he; cases he
  | @exercise db body _ ih =>
    rcases addExercise_store db body with hsame | ⟨n, g, hn, hg, -, hins⟩
    · rw [hsame]; exact ih
    · rw [hins]
      intro e he
      rcases List.mem_append.1 he with he | he
      · exact ih e he
      · rw [List.mem_singleton.1 he]
        exact ⟨hn, hg⟩
  | @progress db body _ ih =>
    intro e he
    rw [addProgress_exercises] at he
    exact ih e he

/-- In every reachable store `id` is a key of table `exercises`. -/
theorem exercise_ids_nodup_of_reachable {db : Store} (h : Reachable db) :
    (db.exercises.map Exercise.id).Nodup := by
  induction h with
  | init => exact List.nodup_nil
  | @exercise db body _ ih =>
    rcases addExercise_store db body with hsame | ⟨n, g, -, -, -, hins⟩
    · rw [hsame]; exact ih
    · rw [hins]
      show ((db.exercises ++ [_]).map Exercise.id).Nodup
      rw [List.map_append, List.nodup_append]
      refine ⟨ih, List.nodup_singleton _, ?_⟩
      intro i hi hnew
      rw [List.map_singleton, List.mem_singleton] at hnew
      exact absurd hnew (ne_of_lt (lt_nextRowid db.exercises_seq hi))
  | @progress db body _ ih =>
    rw [addProgress_exercises]
    exact ih

/-! ## Invariants of the request sequence -/

theorem reachable_serve {db : Store} (h : Reachable db) (request : Request) :
    Reachable (serve db request).2 := by
  cases request with
  | postExercise body => exact Reachable.exercise body h
  | postProgress body => exact Reachable.progress body h
  | _ => exact h

theorem reachable_serveAll (requests : List Request) :
    Reachable (serveAll emptyStore requests) := by
  have hgen : ∀ (db : Store), Reachable db → Reachable (serveAll db requests) := by
    induction requests with
    | nil => intro db h; exact h
    | cons request rest ih => intro db h; exact ih _ (reachable_serve h request)
  exact hgen _ Reachable.init

theorem addProgress_store (db : Store) (body : ProgressBody) :
    (addProgress db body).2 = db ∨
      ∃ exercise_id weight date, exercise_id ≠ 0 ∧ weight ≠ 0 ∧ date ≠ "" ∧
        (∃ e ∈ db.exercises, e.id = exercise_id) ∧
        (addProgress db body).2 = (insertProgress db exercise_id weight date).2 := by
  by_cases hf : truthyInt body.exercise_id = none ∨ truthyNumber body.weight = none ∨
      truthyText body.date = none
  · exact Or.inl (by rw [addProgress_of_falsy hf])
  · obtain ⟨x, w, d⟩ := body
    cases x with
    | none => exact absurd (Or.inl rfl) hf
    | some x =>
      cases w with
      | none => exact absurd (Or.inr (Or.inl rfl)) hf
      | some w =>
        cases d with
        | none => exact absurd (Or.inr (Or.inr rfl)) hf
        | some d =>
          have hx : x ≠ 0 := fun h0 => hf (Or.inl (by simp [truthyInt, h0]))
          have hw : w ≠ 0 := fun h0 => hf (Or.inr (Or.inl (by simp [truthyNumber, h0])))
          have hd : d ≠ "" := fun h0 => hf (Or.inr (Or.inr (by simp [truthyText, h0])))
          cases hrow : findExerciseById db x with
          | none => exact Or.inl (by rw [addProgress_of_truthy db hx hw hd, hrow])
          | some row =>
            refine Or.inr ⟨x, w, d, hx, hw, hd, ?_, by rw [addProgress_of_truthy db hx hw hd, hrow]⟩
            have hmem := List.mem_of_find?_eq_some hrow
            have hid := List.find?_some hrow
            exact ⟨row, hmem, by simpa using hid⟩

theorem addExercise_progress (db : Store) (body : ExerciseBody) :
    (addExercise db body).2.progress = db.progress := by
  rcases addExercise_store db body with h | ⟨n, g, -, -, -, h⟩ <;> rw [h]
  rfl

theorem findExerciseByNameGroup_eq_none {db : Store} {name muscle_group : String} :
    findExerciseByNameGroup db name muscle_group = none ↔
      ∀ e ∈ db.exercises, ¬(e.name = name ∧ e.muscle_group = muscle_group) := by
  simp [findExerciseByNameGroup, List.find?_eq_none]

theorem pairs_distinct_of_reachable {db : Store} (h : Reachable db) :
    db.exercises.Pairwise fun a b => ¬(a.name = b.name ∧ a.muscle_group = b.muscle_group) := by
  induction h with
  | init => exact List.Pairwise.nil
  | @exercise db body _ ih =>
    rcases addExercise_store db body with hsame | ⟨n, g, -, -, hnone, hins⟩
    · rw [hsame]; exact ih
    · rw [hins]
      show (db.exercises ++ [_]).Pairwise _
      rw [List.pairwise_append]
      refine ⟨ih, List.pairwise_singleton _ _, ?_⟩
      intro a ha b hb
      rw [List.mem_singleton.1 hb]
      exact findExerciseByNameGroup_eq_none.1 hnone a ha
  | @progress db body _ ih =>
    rw [addProgress_exercises]
    exact ih

theorem progress_refs_of_reachable {db : Store} (h : Reachable db) :
    ∀ p ∈ db.progress, ∃ e ∈ db.exercises, e.id = p.exercise_id := by
  induction h with
  | init => intro p hp; cases hp
  | @exercise db body _ ih =>
    intro p hp
    rw [addExercise_progress] at hp
    obtain ⟨e, he, hid⟩ := ih p hp
    refine ⟨e, ?_, hid⟩
    rcases addExercise_store db body with hsame | ⟨n, g, -, -, -, hins⟩
    · rw [hsame]; exact he
    · rw [hins]; exact List.mem_append_left _ he
  | @progress db body _ ih =>
    intro p hp
    rw [addProgress_exercises]
    rcases addProgress_store db body with hsame | ⟨x, w, d, -, -, -, hex, hins⟩
    · rw [hsame] at hp; exact ih p hp
    · rw [hins] at hp
      rcases List.mem_append.1 hp with hp | hp
      · exact ih p hp
      · rw [List.mem_singleton.1 hp]
        exact hex

/-- Claim C11: in the store left by any sequence of requests to the seven routes,
handled one after the other from the empty database, no two stored exercises have
the same `name` and the same `muscle_group`. -/
theorem serveAll_no_duplicate_pair (requests : List Request) :
    (serveAll emptyStore requests).exercises.Pairwise fun a b =>
      ¬(a.name = b.name ∧ a.muscle_group = b.muscle_group) :=
  pairs_distinct_of_reachable (reachable_serveAll requests)

/-- Claim C12: in the store left by any sequence of requests to the seven routes,
handled one after the other from the empty database, the `exercise_id` of every
stored progress entry is the `id` of a stored exercise. -/
theorem serveAll_progress_references_exercise (requests : List Request) :
    ∀ p ∈ (serveAll emptyStore requests).progress,
      ∃ e ∈ (serveAll emptyStore requests).exercises, e.id = p.exercise_id :=
  progress_refs_of_reachable (reachable_serveAll requests)

/-- Witness of C12: the first entry recorded in the sample session. -/
theorem serveAll_progress_references_exercise_witness :
    (⟨1, 1, 135, "2024-06-01"⟩ : Progress) ∈ (serveAll emptyStore sampleRequests).progress ∧
    ∃ e ∈ (serveAll emptyStore sampleRequests).exercises, e.id = (1 : Int) :=
  ⟨by decide,
    serveAll_progress_references_exercise sampleRequests ⟨1, 1, 135, "2024-06-01"⟩
      (by decide)⟩

/-- Claim C13: a request to any of the seven routes keeps every stored row: each
table after the request is the table before it followed by the added rows.  The five
GET routes return the store unchanged, `POST /api/exercises` adds at most one row to
`exercises` and leaves `progress` as it was, and `POST /api/progress` adds at most
one row to `progress` and leaves `exercises` as it was. -/
theorem serve_never_updates_or_deletes (db : Store) (request : Request) :
    (∃ added, (serve db request).2.exercises = db.exercises ++ added) ∧
      (∃ added, (serve db request).2.progress = db.progress ++ added) ∧
      (request.isGet = true → (serve db request).2 = db) ∧
      (∀ body, request = .postExercise body →
        (∃ added, added.length ≤ 1 ∧
          (serve db request).2.exercises = db.exercises ++ added) ∧
        (serve db request).2.progress = db.progress) ∧
      (∀ body, request = .postProgress body →
        (∃ added, added.length ≤ 1 ∧
          (serve db request).2.progress = db.progress ++ added) ∧
        (serve db request).2.exercises = db.exercises) := by
  have hex : ∀ body, ∃ added, added.length ≤ 1 ∧
      (addExercise db body).2.exercises = db.exercises ++ added := by
    intro body
    rcases addExercise_store db body with h | ⟨n, g, -, -, -, h⟩
    · exact ⟨[], by simp, by rw [h, List.append_nil]⟩
    · exact ⟨[⟨(insertExercise db n g).1, n, g⟩], by simp, by rw [h]; rfl⟩
  have hpr : ∀ body, ∃ added, added.length ≤ 1 ∧
      (addProgress db body).2.progress = db.progress ++ added := by
    intro body
    rcases addProgress_store db body with h | ⟨x, w, d, -, -, -, -, h⟩
    · exact ⟨[], by simp, by rw [h, List.append_nil]⟩
    · exact ⟨[⟨(insertProgress db x w d).1, x, w, d⟩], by simp, by rw [h]; rfl⟩
  cases request with
  | postExercise body =>
    obtain ⟨added, hlen, hadd⟩ := hex body
    refine ⟨⟨added, hadd⟩, ⟨[], ?_⟩, ?_, ?_, ?_⟩
    · rw [List.append_nil]; exact addExercise_progress db body
    · intro h; cases h
    · intro b hb
      cases hb
      exact ⟨⟨added, hlen, hadd⟩, addExercise_progress db body⟩
    · intro b hb; cases hb
  | postProgress body =>
    obtain ⟨added, hlen, hadd⟩ := hpr body
    refine ⟨⟨[], ?_⟩, ⟨added, hadd⟩, ?_, ?_, ?_⟩
    · rw [List.append_nil]; exact addProgress_exercises db body
    · intro h; cases h
    · intro b hb; cases hb
    · intro b hb
      cases hb
      exact ⟨⟨added, hlen, hadd⟩, addProgress_exercises db body⟩
  | _ =>
    refine ⟨⟨[], (List.append_nil _).symm⟩, ⟨[], (List.append_nil _).symm⟩, fun _ => rfl, ?_, ?_⟩
    · intro b hb; cases hb
    · intro b hb; cases hb

/-- Witness of C13: a GET request on a store with two exercises. -/
theorem serve_never_updates_or_deletes_witness :
    Request.getProgress.isGet = true ∧
    (serve twoExercises Request.getProgress).2 = twoExercises :=
  ⟨rfl, (serve_never_updates_or_deletes twoExercises Request.getProgress).2.2.1 rfl⟩

/-- Claim C14: a 200 answer of `addExercise` or `addProgress` carries the submitted
fields as they were sent, the confirmation message and an id; that id is the id of
no row that was in the table before, and the table after the request is the table
before it followed by the row of that id holding the submitted values. -/
theorem created_response_echoes_and_id_is_new (db : Store) (exercise : ExerciseBody)
    (entry : ProgressBody) :
    ((addExercise db exercise).1.status = 200 →
      ∃ id name muscle_group,
        exercise = ⟨some name, some muscle_group⟩ ∧
        (addExercise db exercise).1 =
          ⟨200, .json ⟨id, name, muscle_group, "Exercise added successfully"⟩⟩ ∧
        (∀ e ∈ db.exercises, e.id ≠ id) ∧
        (addExercise db exercise).2.exercises = db.exercises ++ [⟨id, name, muscle_group⟩]) ∧
    ((addProgress db entry).1.status = 200 →
      ∃ id exercise_id weight date,
        entry = ⟨some exercise_id, some weight, some date⟩ ∧
        (addProgress db entry).1 =
          ⟨200, .json ⟨id, exercise_id, weight, date, "Progress added successfully"⟩⟩ ∧
        (∀ p ∈ db.progress, p.id ≠ id) ∧
        (addProgress db entry).2.progress =
          db.progress ++ [⟨id, exercise_id, weight, date⟩]) := by
  constructor
  · intro hok
    obtain ⟨n, g⟩ := exercise
    cases n with
    | none => simp [addExercise, truthyText] at hok
    | some n =>
      cases g with
      | none => simp [addExercise, truthyText] at hok
      | some g =>
        by_cases hn : n = ""
        · simp [addExercise, truthyText, hn] at hok
        · by_cases hg : g = ""
          · simp [addExercise, truthyText, hn, hg] at hok
          · cases hfind : findExerciseByNameGroup db n g with
            | some row =>
              simp [addExercise, truthyText_some hn, truthyText_some hg, hfind] at hok
            | none =>
              have hrun : addExercise db ⟨some n, some g⟩ =
                  (⟨200, .json ⟨(insertExercise db n g).1, n, g,
                    "Exercise added successfully"⟩⟩, (insertExercise db n g).2) := by
                simp [addExercise, truthyText_some hn, truthyText_some hg, hfind]
              refine ⟨(insertExercise db n g).1, n, g, rfl, by rw [hrun], ?_, by rw [hrun]; rfl⟩
              intro e he
              exact ne_of_lt (lt_nextRowid db.exercises_seq (List.mem_map_of_mem _ he))
  · intro hok
    by_cases hf : truthyInt entry.exercise_id = none ∨ truthyNumber entry.weight = none ∨
        truthyText entry.date = none
    · rw [addProgress_of_falsy hf] at hok
      exact absurd hok (by show (400 : Nat) ≠ 200; decide)
    · obtain ⟨x, w, d⟩ := entry
      cases x with
      | none => exact absurd (Or.inl rfl) hf
      | some x =>
        cases w with
        | none => exact absurd (Or.inr (Or.inl rfl)) hf
        | some w =>
          cases d with
          | none => exact absurd (Or.inr (Or.inr rfl)) hf
          | some d =>
            have hx : x ≠ 0 := fun h0 => hf (Or.inl (by simp [truthyInt, h0]))
            have hw : w ≠ 0 := fun h0 => hf (Or.inr (Or.inl (by simp [truthyNumber, h0])))
            have hd : d ≠ "" := fun h0 => hf (Or.inr (Or.inr (by simp [truthyText, h0])))
            have hrun := addProgress_of_truthy db hx hw hd
            cases hrow : findExerciseById db x with
            | none =>
              rw [hrow] at hrun
              rw [hrun] at hok
              exact absurd hok (by show (400 : Nat) ≠ 200; decide)
            | some row =>
              rw [hrow] at hrun
              refine ⟨(insertProgress db x w d).1, x, w, d, rfl, by rw [hrun], ?_,
                by rw [hrun]; rfl⟩
              intro p hp
              exact ne_of_lt (lt_nextRowid db.progress_seq (List.mem_map_of_mem _ hp))

/-- Witness of C14: adding Deadlift/Back and recording 135 for exercise 1. -/
theorem created_response_echoes_and_id_is_new_witness :
    ((addExercise twoExercises ⟨some "Deadlift", some "Back"⟩).1.status = 200 ∧
      (addProgress twoExercises ⟨some 1, some 135, some "2024-06-01"⟩).1.status = 200) ∧
    ((∃ id name muscle_group,
        (⟨some "Deadlift", some "Back"⟩ : ExerciseBody) = ⟨some name, some muscle_group⟩ ∧
        (addExercise twoExercises ⟨some "Deadlift", some "Back"⟩).1 =
          ⟨200, .json ⟨id, name, muscle_group, "Exercise added successfully"⟩⟩ ∧
        (∀ e ∈ twoExercises.exercises, e.id ≠ id) ∧
        (addExercise twoExercises ⟨some "Deadlift", some "Back"⟩).2.exercises =
          twoExercises.exercises ++ [⟨id, name, muscle_group⟩]) ∧
      (∃ id exercise_id weight date,
        (⟨some 1, some 135, some "2024-06-01"⟩ : ProgressBody) =
          ⟨some exercise_id, some weight, some date⟩ ∧
        (addProgress twoExercises ⟨some 1, some 135, some "2024-06-01"⟩).1 =
          ⟨200, .json ⟨id, exercise_id, weight, date, "Progress added successfully"⟩⟩ ∧
        (∀ p ∈ twoExercises.progress, p.id ≠ id) ∧
        (addProgress twoExercises ⟨some 1, some 135, some "2024-06-01"⟩).2.progress =
          twoExercises.progress ++ [⟨id, exercise_id, weight, date⟩])) :=
  ⟨⟨by decide, by decide⟩,
    (created_response_echoes_and_id_is_new twoExercises ⟨some "Deadlift", some "Back"⟩
      ⟨some 1, some 135, some "2024-06-01"⟩).1 (by decide),
    (created_response_echoes_and_id_is_new twoExercises ⟨some "Deadlift", some "Back"⟩
      ⟨some 1, some 135, some "2024-06-01"⟩).2 (by decide)⟩

theorem filter_id_eq_singleton {exs : List Exercise} (hids : (exs.map Exercise.id).Nodup)
    {e : Exercise} (he : e ∈ exs) {x : Int} (hx : x = e.id) :
    (exs.filter fun e2 => x = e2.id) = [e] := by
  induction exs with
  | nil => cases he
  | cons a rest ih =>
    rw [List.map_cons, List.nodup_cons] at hids
    obtain ⟨hfresh, hrest⟩ := hids
    rcases List.mem_cons.1 he with rfl | hmem
    · have hnomatch : (rest.filter fun e2 => x = e2.id) = [] := by
        rw [List.filter_eq_nil_iff]
        intro e2 he2 h2
        have h2id : x = e2.id := by simpa using h2
        exact hfresh (List.mem_map.2 ⟨e2, he2, h2id.symm.trans hx⟩)
      rw [List.filter_cons, if_pos (by simpa using hx), hnomatch]
    · have hne : ¬ x = a.id := by
        intro h
        exact hfresh (List.mem_map.2 ⟨e, hmem, hx.symm.trans h⟩)
      rw [List.filter_cons, if_neg (by simpa using hne)]
      exact ih hrest hmem

theorem join_entries_of_key (db : Store) (hids : (db.exercises.map Exercise.id).Nodup)
    (hrefs : ∀ p ∈ db.progress, ∃ e ∈ db.exercises, e.id = p.exercise_id) :
    ((joinProgress db).map fun r => (⟨r.id, r.exercise_id, r.weight, r.date⟩ : Progress)) =
      db.progress := by
  have hgen : ∀ entries : List Progress,
      (∀ p ∈ entries, ∃ e ∈ db.exercises, e.id = p.exercise_id) →
      ((entries.flatMap fun p =>
        (db.exercises.filter fun e => p.exercise_id = e.id).map fun e =>
          (⟨p.id, p.exercise_id, e.name, e.muscle_group, p.weight, p.date⟩ : ProgressRow)).map
            fun r => (⟨r.id, r.exercise_id, r.weight, r.date⟩ : Progress)) = entries := by
    intro entries
    induction entries with
    | nil => intro _; rfl
    | cons p rest ih =>
      intro h
      obtain ⟨e, he, hid⟩ := h p (List.mem_cons_self _ _)
      rw [List.flatMap_cons, List.map_append, ih fun q hq => h q (List.mem_cons_of_mem _ hq),
        filter_id_eq_singleton hids he hid.symm]
      rfl
  exact hgen db.progress hrefs

/-- Claim C15: in the store left by any sequence of requests handled one after the
other from the empty database, `listProgress` answers 200 with rows that are, up to
order, the stored progress entries, each once (so as many rows as stored entries),
and every row carries the name and muscle group of the one stored exercise whose
`id` is the row's `exercise_id`. -/
theorem listProgress_complete_and_joined (requests : List Request) :
    ∃ rows, listProgress (serveAll emptyStore requests) = ⟨200, .json rows⟩ ∧
      (rows.map fun r => (⟨r.id, r.exercise_id, r.weight, r.date⟩ : Progress)).Perm
        (serveAll emptyStore requests).progress ∧
      rows.length = (serveAll emptyStore requests).progress.length ∧
      ∀ r ∈ rows, ∃ e ∈ (serveAll emptyStore requests).exercises,
        e.id = r.exercise_id ∧ r.exercise_name = e.name ∧ r.muscle_group = e.muscle_group ∧
          ∀ e2 ∈ (serveAll emptyStore requests).exercises, e2.id = r.exercise_id → e2 = e := by
  have hreach := reachable_serveAll requests
  have hids := exercise_ids_nodup_of_reachable hreach
  have hrefs := progress_refs_of_reachable hreach
  have hperm : ((selectProgress (serveAll emptyStore requests)).map fun r =>
      (⟨r.id, r.exercise_id, r.weight, r.date⟩ : Progress)).Perm
        (serveAll emptyStore requests).progress := by
    rw [← join_entries_of_key _ hids hrefs]
    exact (List.perm_insertionSort _ _).map _
  refine ⟨selectProgress _, rfl, hperm, ?_, ?_⟩
  · rw [← hperm.length_eq, List.length_map]
  · intro r hr
    unfold selectProgress at hr
    rw [List.mem_insertionSort, mem_joinProgress] at hr
    obtain ⟨p, -, e, he, hpe, rfl⟩ := hr
    refine ⟨e, he, hpe.symm, rfl, rfl, ?_⟩
    intro e2 he2 h2
    exact List.inj_on_of_nodup_map hids he2 he (h2.trans hpe)

/-- Witness of C15: the listing after the sample session has its two entries. -/
theorem listProgress_complete_and_joined_witness :
    (serveAll emptyStore sampleRequests).progress.length = 2 ∧
    ∃ rows, listProgress (serveAll emptyStore sampleRequests) = ⟨200, .json rows⟩ ∧
      rows.length = 2 := by
  refine ⟨by decide, ?_⟩
  obtain ⟨rows, hresp, -, hlen, -⟩ := listProgress_complete_and_joined sampleRequests
  exact ⟨rows, hresp, hlen.trans (by decide)⟩

/-! # Client (`public/js/main.js`) -/

/-! ## Time-range filter -/

theorem notBeforeCutoff_iff (dateParse : String → Option Int) (cutoffDate : Int)
    (entry : ProgressRow) :
    notBeforeCutoff dateParse cutoffDate entry = true ↔
      ∃ entryDate, dateParse entry.date = some entryDate ∧ ¬entryDate < cutoffDate := by
  unfold notBeforeCutoff
  cases dateParse entry.date with
  | none => simp
  | some t => simp

theorem filterDataByTimeRange_of_range (dateParse : String → Option Int)
    (localTZA now : Int) (data : List ProgressRow)
    {timeRange : String} {n : Int}
    (hrange : (timeRange = "last-month" ∧ n = 1) ∨ (timeRange = "last-3-months" ∧ n = 3) ∨
      (timeRange = "last-6-months" ∧ n = 6)) :
    filterDataByTimeRange dateParse localTZA now data timeRange =
      data.filter
        (notBeforeCutoff dateParse (setMonth localTZA now (getMonth localTZA now - n))) := by
  rcases hrange with ⟨rfl, rfl⟩ | ⟨rfl, rfl⟩ | ⟨rfl, rfl⟩
  · simp only [filterDataByTimeRange, if_true]
  · have h1 : ¬ "last-3-months" = "last-month" := by decide
    simp only [filterDataByTimeRange, h1, if_false, if_true]
  · have h1 : ¬ "last-6-months" = "last-month" := by decide
    have h2 : ¬ "last-6-months" = "last-3-months" := by decide
    simp only [filterDataByTimeRange, h1, h2, if_false, if_true]

/-- The filter reads the parser only at the dates of the entries: two parsers that
agree there give the same result. -/
theorem filterDataByTimeRange_congr {parse₁ parse₂ : String → Option Int}
    (localTZA now : Int) {data : List ProgressRow} (timeRange : String)
    (h : ∀ entry ∈ data, parse₁ entry.date = parse₂ entry.date) :
    filterDataByTimeRange parse₁ localTZA now data timeRange =
      filterDataByTimeRange parse₂ localTZA now data timeRange := by
  have hkeep : ∀ cutoffDate, data.filter (notBeforeCutoff parse₁ cutoffDate) =
      data.filter (notBeforeCutoff parse₂ cutoffDate) := by
    intro cutoffDate
    apply List.filter_congr
    intro entry hentry
    simp only [notBeforeCutoff, h entry hentry]
  simp only [filterDataByTimeRange, hkeep]

/-- On entries dated by date-only ISO strings the result is the same in every engine:
it is the one computed with `isoDateOnly`. -/
theorem filterDataByTimeRange_isoDates {dateParse : String → Option Int}
    (hparse : ParsesIsoDates dateParse) (localTZA now : Int) {data : List ProgressRow}
    (timeRange : String) (hdata : ∀ entry ∈ data, (isoDateOnly entry.date).isSome = true) :
    filterDataByTimeRange dateParse localTZA now data timeRange =
      filterDataByTimeRange isoDateOnly localTZA now data timeRange := by
  apply filterDataByTimeRange_congr
  intro entry hentry
  obtain ⟨t, ht⟩ := Option.isSome_iff_exists.1 (hdata entry hentry)
  rw [ht, hparse _ _ ht]

theorem parsesIsoDates_isoDateOnly : ParsesIsoDates isoDateOnly :=
  fun _ _ h => h

/-- Claim C16, counterexample: at 12:00 UTC on 2024-06-01 the cutoff carries the time
of day, and of the entries dated 2024-01-01, 2024-03-01 and 2024-05-01 only the last
is returned for `last-3-months`, in every engine. -/
theorem filterDataByTimeRange_noon_counterexample :
    (yearFromTime 1717243200000 = 2024 ∧ monthFromTime 1717243200000 = 5 ∧
      dateFromTime 1717243200000 = 1) ∧
    (filterDataByTimeRange isoDateOnly 0 1717243200000 threeEntries "last-3-months" =
      [⟨3, 1, "Bench Press", "Chest", 145, "2024-05-01"⟩]) ∧
    ∀ dateParse, ParsesIsoDates dateParse →
      filterDataByTimeRange dateParse 0 1717243200000 threeEntries "last-3-months" =
        [⟨3, 1, "Bench Press", "Chest", 145, "2024-05-01"⟩] := by
  refine ⟨by decide, by decide, fun dateParse hparse => ?_⟩
  rw [filterDataByTimeRange_isoDates hparse 0 1717243200000 "last-3-months" (by decide)]
  decide

/-- Claim C16, amended: at the instant 2024-06-01T00:00:00.000Z, in a zone of offset
zero, `last-3-months` uses the cutoff 2024-03-01T00:00:00.000Z and returns the entries
dated 2024-03-01 and 2024-05-01, without the one dated 2024-01-01; and this is the
result in every engine. -/
theorem filterDataByTimeRange_last_three_months_example :
    isoDateOnly "2024-06-01" = some 1717200000000 ∧
    setMonth 0 1717200000000 (getMonth 0 1717200000000 - 3) = 1709251200000 ∧
    isoDateOnly "2024-03-01" = some 1709251200000 ∧
    filterDataByTimeRange isoDateOnly 0 1717200000000 threeEntries "last-3-months" =
      [⟨2, 1, "Bench Press", "Chest", 140, "2024-03-01"⟩,
       ⟨3, 1, "Bench Press", "Chest", 145, "2024-05-01"⟩] ∧
    ∀ dateParse, ParsesIsoDates dateParse →
      filterDataByTimeRange dateParse 0 1717200000000 threeEntries "last-3-months" =
        [⟨2, 1, "Bench Press", "Chest", 140, "2024-03-01"⟩,
         ⟨3, 1, "Bench Press", "Chest", 145, "2024-05-01"⟩] := by
  refine ⟨by decide, by decide, by decide, by decide, fun dateParse hparse => ?_⟩
  rw [filterDataByTimeRange_isoDates hparse 0 1717200000000 "last-3-months" (by decide)]
  decide

/-- Claim C17, counterexample: an entry whose date string is not a date (`new Date`
gives an Invalid Date) is not strictly before the cutoff, yet `last-month` discards
it. -/
theorem filterDataByTimeRange_invalid_date_counterexample :
    (isoDateOnly "unknown" = none ∧
      filterDataByTimeRange isoDateOnly 0 1717200000000
        [⟨1, 1, "Bench Press", "Chest", 135, "unknown"⟩] "last-month" = []) ∧
    ∀ dateParse : String → Option Int, dateParse "unknown" = none →
      (¬∃ entryDate, dateParse "unknown" = some entryDate ∧
        entryDate < setMonth 0 1717200000000 (getMonth 0 1717200000000 - 1)) ∧
      filterDataByTimeRange dateParse 0 1717200000000
        [⟨1, 1, "Bench Press", "Chest", 135, "unknown"⟩] "last-month" = [] := by
  refine ⟨by decide, fun dateParse hnone => ⟨?_, ?_⟩⟩
  · rintro ⟨t, ht, -⟩
    rw [hnone] at ht
    cases ht
  · simp [filterDataByTimeRange, notBeforeCutoff, hnone]

/-- Claim C17, amended: for `last-month`, `last-3-months` and `last-6-months`
(`n` = 1, 3, 6), in every engine, at every instant and in every zone, the result is
the sublist of the entries for which `new Date(entry.date)` is a valid date not
strictly before the cutoff `setMonth(getMonth() - n)`.  So an entry with a valid date
is discarded exactly when that date is strictly before the cutoff, an entry with an
Invalid Date is discarded, and an entry dated by a date-only ISO string is kept
exactly when midnight UTC of that day is not strictly before the cutoff. -/
theorem filterDataByTimeRange_keeps_not_before (dateParse : String → Option Int)
    (localTZA now : Int) (data : List ProgressRow) (timeRange : String) (n : Int)
    (hrange : (timeRange = "last-month" ∧ n = 1) ∨ (timeRange = "last-3-months" ∧ n = 3) ∨
      (timeRange = "last-6-months" ∧ n = 6)) :
    (filterDataByTimeRange dateParse localTZA now data timeRange).Sublist data ∧
    (∃ keep : ProgressRow → Bool,
      filterDataByTimeRange dateParse localTZA now data timeRange = data.filter keep ∧
      ∀ entry, keep entry = true ↔
        ∃ entryDate, dateParse entry.date = some entryDate ∧
          ¬entryDate < setMonth localTZA now (getMonth localTZA now - n)) ∧
    (∀ entry ∈ data,
      (entry ∈ filterDataByTimeRange dateParse localTZA now data timeRange ↔
        ∃ entryDate, dateParse entry.date = some entryDate ∧
          ¬entryDate < setMonth localTZA now (getMonth localTZA now - n)) ∧
      (∀ entryDate, dateParse entry.date = some entryDate →
        (entry ∉ filterDataByTimeRange dateParse localTZA now data timeRange ↔
          entryDate < setMonth localTZA now (getMonth localTZA now - n))) ∧
      (dateParse entry.date = none →
        entry ∉ filterDataByTimeRange dateParse localTZA now data timeRange)) ∧
    (ParsesIsoDates dateParse → ∀ entry ∈ data, ∀ midnight,
      isoDateOnly entry.date = some midnight →
        (entry ∈ filterDataByTimeRange dateParse localTZA now data timeRange ↔
          ¬midnight < setMonth localTZA now (getMonth localTZA now - n))) := by
  rw [filterDataByTimeRange_of_range dateParse localTZA now data hrange]
  have hmem : ∀ entry ∈ data, (entry ∈ data.filter
      (notBeforeCutoff dateParse (setMonth localTZA now (getMonth localTZA now - n))) ↔
      ∃ entryDate, dateParse entry.date = some entryDate ∧
        ¬entryDate < setMonth localTZA now (getMonth localTZA now - n)) := by
    intro entry hentry
    rw [List.mem_filter, notBeforeCutoff_iff]
    exact ⟨fun h => h.2, fun h => ⟨hentry, h⟩⟩
  refine ⟨List.filter_sublist _, ⟨_, rfl, fun entry => notBeforeCutoff_iff _ _ entry⟩, ?_, ?_⟩
  · intro entry hentry
    refine ⟨hmem entry hentry, fun entryDate hparse => ?_, fun hnone => ?_⟩
    · rw [hmem entry hentry]
      constructor
      · intro hnot
        by_contra hlt
        exact hnot ⟨entryDate, hparse, hlt⟩
      · rintro hlt ⟨t, ht, hnlt⟩
        rw [hparse] at ht
        injection ht with ht
        exact hnlt (ht ▸ hlt)
    · rw [hmem entry hentry]
      rintro ⟨t, ht, -⟩
      rw [hnone] at ht
      cases ht
  · intro hiso entry hentry midnight hmid
    rw [hmem entry hentry]
    constructor
    · rintro ⟨t, ht, hnlt⟩
      rw [hiso _ _ hmid] at ht
      injection ht with ht
      exact ht ▸ hnlt
    · intro hnlt
      exact ⟨midnight, hiso _ _ hmid, hnlt⟩

/-- Witness of C17 (amended): the three sample entries at 2024-06-01T00:00Z with
`last-3-months`; the entry dated 2024-03-01 is kept and the one dated 2024-01-01 is
discarded, each by the comparison of its date with the cutoff. -/
theorem filterDataByTimeRange_keeps_not_before_witness :
    (("last-3-months" = "last-month" ∧ (3 : Int) = 1) ∨
      ("last-3-months" = "last-3-months" ∧ (3 : Int) = 3) ∨
      ("last-3-months" = "last-6-months" ∧ (3 : Int) = 6)) ∧
    (filterDataByTimeRange isoDateOnly 0 1717200000000 threeEntries "last-3-months").Sublist
      threeEntries ∧
    ((⟨2, 1, "Bench Press", "Chest", 140, "2024-03-01"⟩ : ProgressRow) ∈
        filterDataByTimeRange isoDateOnly 0 1717200000000 threeEntries "last-3-months" ↔
      ¬(1709251200000 : Int) < setMonth 0 1717200000000 (getMonth 0 1717200000000 - 3)) ∧
    ((⟨1, 1, "Bench Press", "Chest", 135, "2024-01-01"⟩ : ProgressRow) ∉
        filterDataByTimeRange isoDateOnly 0 1717200000000 threeEntries "last-3-months" ↔
      (1704067200000 : Int) < setMonth 0 1717200000000 (getMonth 0 1717200000000 - 3)) ∧
    (⟨2, 1, "Bench Press", "Chest", 140, "2024-03-01"⟩ : ProgressRow) ∈
      filterDataByTimeRange isoDateOnly 0 1717200000000 threeEntries "last-3-months" ∧
    (⟨1, 1, "Bench Press", "Chest", 135, "2024-01-01"⟩ : ProgressRow) ∉
      filterDataByTimeRange isoDateOnly 0 1717200000000 threeEntries "last-3-months" :=
  ⟨by decide,
    (filterDataByTimeRange_keeps_not_before isoDateOnly 0 1717200000000 threeEntries
      "last-3-months" 3 (by decide)).1,
    (filterDataByTimeRange_keeps_not_before isoDateOnly 0 1717200000000 threeEntries
      "last-3-months" 3 (by decide)).2.2.2 parsesIsoDates_isoDateOnly _ (by decide)
        1709251200000 (by decide),
    ((filterDataByTimeRange_keeps_not_before isoDateOnly 0 1717200000000 threeEntries
      "last-3-months" 3 (by decide)).2.2.1 _ (by decide)).2.1 1704067200000 (by decide),
    ((filterDataByTimeRange_keeps_not_before isoDateOnly 0 1717200000000 threeEntries
      "last-3-months" 3 (by decide)).2.2.2 parsesIsoDates_isoDateOnly _ (by decide)
        1709251200000 (by decide)).2 (by decide),
    (((filterDataByTimeRange_keeps_not_before isoDateOnly 0 1717200000000 threeEntries
      "last-3-months" 3 (by decide)).2.2.1 _ (by decide)).2.1 1704067200000
        (by decide)).2 (by decide)⟩

/-! ## Recent-progress table -/

/-- Claim C18: on a page that has the table body, `updateProgressTable` writes one row
for each of the first `min 10 n` entries of the fetched list, in the order received
(a single notice row when the list is empty); when the list is the answer of
`listProgress`, no entry left out is dated later than an entry shown. -/
theorem updateProgressTable_shows_first_ten (table : List ProgressTableRow)
    (progress : List ProgressRow) :
    (progress = [] → updateProgressTable (some table) progress =
      some [.notice "No progress entries found. Add some progress to get started!"]) ∧
    (progress ≠ [] → updateProgressTable (some table) progress =
      some ((progress.take 10).map fun entry =>
        .entry (entry.exercise_name ++ " (" ++ entry.muscle_group ++ ")") entry.weight
          entry.date)) ∧
    (progress.take 10).length = min 10 progress.length ∧
    (∀ db, listProgress db = ⟨200, .json progress⟩ →
      ∀ shown ∈ progress.take 10, ∀ left ∈ progress.drop 10,
        ¬textLt shown.date left.date) := by
  refine ⟨?_, ?_, List.length_take _ _, ?_⟩
  · rintro rfl
    rfl
  · intro hne
    have hlen : progress.length ≠ 0 := fun h => hne (List.length_eq_zero.1 h)
    simp only [updateProgressTable, hlen, if_false]
  · intro db hdb shown hshown left hleft
    have hrows : progress = selectProgress db := by
      unfold listProgress at hdb
      injection hdb with _ hbody
      injection hbody with hrows
      exact hrows.symm
    have hsorted : (progress.take 10 ++ progress.drop 10).Pairwise
        fun a b => textLe b.date a.date := by
      rw [List.take_append_drop, hrows]
      exact byDateDesc_sorted _
    have hle : textLe left.date shown.date :=
      (List.pairwise_append.1 hsorted).2.2 shown hshown left hleft
    exact not_lt.2 hle

/-- Witness of C18: of twelve fetched entries ten rows are written. -/
theorem updateProgressTable_shows_first_ten_witness :
    twelveEntries ≠ [] ∧
    (updateProgressTable (some []) twelveEntries).map List.length = some 10 ∧
    (twelveEntries.take 10).length = min 10 twelveEntries.length := by
  refine ⟨by decide, ?_, (updateProgressTable_shows_first_ten [] twelveEntries).2.2.1⟩
  rw [(updateProgressTable_shows_first_ten [] twelveEntries).2.1 (by decide)]
  decide

/-! ## Chart tables -/

theorem pushEntry_keys (key date : String) (weight : Rat)
    (acc : List (String × ExerciseSeries)) :
    (pushEntry key date weight acc).map Prod.fst =
      if key ∈ acc.map Prod.fst then acc.map Prod.fst else acc.map Prod.fst ++ [key] := by
  induction acc with
  | nil => rfl
  | cons head rest ih =>
    obtain ⟨k, series⟩ := head
    by_cases hk : k = key
    · subst hk
      simp [pushEntry]
    · have hne : ¬ key = k := fun h => hk h.symm
      simp only [pushEntry, hk, if_false, List.map_cons, ih, List.mem_cons, hne, false_or]
      split <;> rfl

theorem mem_pushEntry {key date : String} {weight : Rat}
    {acc : List (String × ExerciseSeries)} (hkeys : (acc.map Prod.fst).Nodup)
    {k : String} {s : ExerciseSeries} (hmem : (k, s) ∈ pushEntry key date weight acc) :
    (k ≠ key ∧ (k, s) ∈ acc) ∨
      (k = key ∧ ((∃ old, (key, old) ∈ acc ∧
          s = ⟨old.dates ++ [date], old.weights ++ [weight]⟩) ∨
        (key ∉ acc.map Prod.fst ∧ s = ⟨[date], [weight]⟩))) := by
  induction acc with
  | nil =>
    simp only [pushEntry, List.mem_singleton, Prod.mk.injEq] at hmem
    exact Or.inr ⟨hmem.1, Or.inr ⟨by simp, hmem.2⟩⟩
  | cons head rest ih =>
    obtain ⟨k0, s0⟩ := head
    rw [List.map_cons, List.nodup_cons] at hkeys
    obtain ⟨hfresh, hrest⟩ := hkeys
    by_cases hk : k0 = key
    · subst hk
      simp only [pushEntry, if_true, List.mem_cons, Prod.mk.injEq] at hmem
      rcases hmem with ⟨hk1, hs1⟩ | hin
      · exact Or.inr ⟨hk1, Or.inl ⟨s0, List.mem_cons_self _ _, hs1⟩⟩
      · refine Or.inl ⟨?_, List.mem_cons_of_mem _ hin⟩
        intro hkk
        exact hfresh (List.mem_map.2 ⟨(k, s), hin, hkk⟩)
    · simp only [pushEntry, hk, if_false, List.mem_cons, Prod.mk.injEq] at hmem
      rcases hmem with ⟨hk1, hs1⟩ | hin
      · refine Or.inl ⟨fun h => hk (hk1 ▸ h), ?_⟩
        rw [hk1, hs1]
        exact List.mem_cons_self _ _
      · rcases ih hrest hin with ⟨hne, hold⟩ | ⟨heq, hcase⟩
        · exact Or.inl ⟨hne, List.mem_cons_of_mem _ hold⟩
        · refine Or.inr ⟨heq, ?_⟩
          rcases hcase with ⟨old, hold, hs⟩ | ⟨hnot, hs⟩
          · exact Or.inl ⟨old, List.mem_cons_of_mem _ hold, hs⟩
          · refine Or.inr ⟨?_, hs⟩
            rw [List.map_cons, List.mem_cons, not_or]
            exact ⟨fun h => hk h.symm, hnot⟩

theorem pushEntry_rows (key date : String) (weight : Rat)
    (acc : List (String × ExerciseSeries)) :
    ((pushEntry key date weight acc).map fun ks => ks.2.dates.length).sum =
      (acc.map fun ks => ks.2.dates.length).sum + 1 := by
  induction acc with
  | nil => rfl
  | cons head rest ih =>
    obtain ⟨k, series⟩ := head
    by_cases hk : k = key
    · simp only [pushEntry, hk, if_true, List.map_cons, List.sum_cons, List.length_append,
        List.length_singleton]
      omega
    · simp only [pushEntry, hk, if_false, List.map_cons, List.sum_cons, ih]
      omega

theorem groupByExercise_append (done : List ProgressRow) (entry : ProgressRow) :
    groupByExercise (done ++ [entry]) =
      pushEntry (chartKey entry) entry.date entry.weight (groupByExercise done) := by
  simp [groupByExercise, List.foldl_append]

theorem groupByExercise_spec (data : List ProgressRow) :
    ((groupByExercise data).map Prod.fst).Nodup ∧
      (∀ k, k ∈ (groupByExercise data).map Prod.fst ↔ ∃ entry ∈ data, chartKey entry = k) ∧
      (∀ k s, (k, s) ∈ groupByExercise data →
        s.dates = (data.filter fun entry => chartKey entry = k).map ProgressRow.date ∧
        s.weights = (data.filter fun entry => chartKey entry = k).map ProgressRow.weight) ∧
      ((groupByExercise data).map fun ks => ks.2.dates.length).sum = data.length := by
  induction data using List.reverseRecOn with
  | nil => exact ⟨List.nodup_nil, by simp [groupByExercise], by simp [groupByExercise], rfl⟩
  | append_singleton done entry ih =>
    obtain ⟨hnodup, hkeys, hseries, hsum⟩ := ih
    rw [groupByExercise_append]
    refine ⟨?_, ?_, ?_, ?_⟩
    · rw [pushEntry_keys]
      split
      · exact hnodup
      · rename_i hnot
        rw [List.nodup_append]
        refine ⟨hnodup, List.nodup_singleton _, ?_⟩
        intro a ha hb
        rw [List.mem_singleton] at hb
        exact hnot (hb ▸ ha)
    · intro k
      rw [pushEntry_keys]
      constructor
      · intro hk
        have hk2 : k ∈ (groupByExercise done).map Prod.fst ∨ k = chartKey entry := by
          split at hk
          · exact Or.inl hk
          · rcases List.mem_append.1 hk with h | h
            · exact Or.inl h
            · exact Or.inr (List.mem_singleton.1 h)
        rcases hk2 with h | h
        · obtain ⟨e, he, hek⟩ := (hkeys k).1 h
          exact ⟨e, List.mem_append_left _ he, hek⟩
        · exact ⟨entry, by simp, h.symm⟩
      · rintro ⟨e, he, hek⟩
        rcases List.mem_append.1 he with h | h
        · have hin := (hkeys k).2 ⟨e, h, hek⟩
          split
          · exact hin
          · exact List.mem_append_left _ hin
        · rw [List.mem_singleton] at h
          subst h
          subst hek
          split
          · assumption
          · exact List.mem_append_right _ (List.mem_singleton_self _)
    · intro k s hmem
      rcases mem_pushEntry hnodup hmem with ⟨hne, hold⟩ | ⟨heq, hcase⟩
      · have hne2 : ¬ chartKey entry = k := fun h => hne h.symm
        obtain ⟨hd, hw⟩ := hseries k s hold
        simp only [List.filter_append, List.filter_cons, List.filter_nil, hne2, decide_False,
          Bool.false_eq_true, if_false, List.append_nil]
        exact ⟨hd, hw⟩
      · subst heq
        rcases hcase with ⟨old, hold, hs⟩ | ⟨hnot, hs⟩
        · obtain ⟨hd, hw⟩ := hseries _ old hold
          subst hs
          simp only [List.filter_append, List.filter_cons, List.filter_nil, decide_True,
            if_true, List.map_append, List.map_cons, List.map_nil, hd, hw]
          exact ⟨trivial, trivial⟩
        · have hnone : (done.filter fun e => chartKey e = chartKey entry) = [] := by
            rw [List.filter_eq_nil_iff]
            intro e he hek
            exact hnot ((hkeys _).2 ⟨e, he, by simpa using hek⟩)
          subst hs
          simp only [List.filter_append, List.filter_cons, List.filter_nil, decide_True,
            if_true, List.map_append, List.map_cons, List.map_nil, hnone, List.nil_append]
          exact ⟨trivial, trivial⟩
    · rw [pushEntry_rows, hsum, List.length_append, List.length_singleton]

theorem seriesRows_of_entries (entries : List ProgressRow) :
    seriesRows ⟨entries.map ProgressRow.date, entries.map ProgressRow.weight⟩ =
      entries.map fun entry => (entry.date, some entry.weight) := by
  unfold seriesRows
  apply List.ext_getElem
  · simp
  · intro i h1 h2
    simp only [List.length_map, List.length_range] at h1
    simp [List.getD_eq_getElem?_getD, List.getElem?_eq_getElem, h1]

/-- Claim C19: `renderChart` writes one table for each distinct label
`exercise_name (muscle_group)` of the entries and no other table; the rows of the
table of a label are the date and weight of the entries with that label, in the
order received; in every group there are as many dates as weights, and the row
counts of all tables add up to the number of entries. -/
theorem renderChart_one_table_per_label (data : List ProgressRow) :
    ((renderChart data).map ChartTable.title).Nodup ∧
      (∀ label, label ∈ (renderChart data).map ChartTable.title ↔
        ∃ entry ∈ data,
          entry.exercise_name ++ " (" ++ entry.muscle_group ++ ")" = label) ∧
      (∀ table ∈ renderChart data,
        table.rows =
          (data.filter fun entry =>
            entry.exercise_name ++ " (" ++ entry.muscle_group ++ ")" = table.title).map
              fun entry => (entry.date, some entry.weight)) ∧
      (∀ exercise ∈ groupByExercise data,
        exercise.2.dates.length = exercise.2.weights.length) ∧
      ((renderChart data).map fun table => table.rows.length).sum = data.length := by
  obtain ⟨hnodup, hkeys, hseries, hsum⟩ := groupByExercise_spec data
  have htitles : (renderChart data).map ChartTable.title =
      (groupByExercise data).map Prod.fst := by
    simp [renderChart, List.map_map, Function.comp_def]
  have hrows : ∀ ks ∈ groupByExercise data,
      seriesRows ks.2 = (data.filter fun entry => chartKey entry = ks.1).map
        fun entry => (entry.date, some entry.weight) := by
    intro ks hks
    obtain ⟨hd, hw⟩ := hseries ks.1 ks.2 hks
    rw [← seriesRows_of_entries]
    congr 1
    cases hsd : ks.2
    rw [hsd] at hd hw
    simp only at hd hw
    rw [hd, hw]
  refine ⟨htitles ▸ hnodup, ?_, ?_, ?_, ?_⟩
  · intro label
    rw [htitles]
    exact hkeys label
  · intro table htable
    obtain ⟨ks, hks, rfl⟩ := List.mem_map.1 htable
    exact hrows ks hks
  · intro ks hks
    obtain ⟨hd, hw⟩ := hseries ks.1 ks.2 hks
    rw [hd, hw, List.length_map, List.length_map]
  · rw [← hsum]
    simp only [renderChart, List.map_map, Function.comp_def]
    congr 1
    apply List.map_congr_left
    intro ks hks
    rw [hrows ks hks, List.length_map]
    obtain ⟨hd, -⟩ := hseries ks.1 ks.2 hks
    rw [hd, List.length_map]

/-- Witness of C19: the Squat table of a chart of two exercises. -/
theorem renderChart_one_table_per_label_witness :
    (∃ entry ∈ selectProgress sameDayStore,
      entry.exercise_name ++ " (" ++ entry.muscle_group ++ ")" = "Squat (Legs)") ∧
    "Squat (Legs)" ∈ (renderChart (selectProgress sameDayStore)).map ChartTable.title :=
  ⟨by decide,
    ((renderChart_one_table_per_label (selectProgress sameDayStore)).2.1 "Squat (Legs)").2
      (by decide)⟩

/-! ## Tabs -/

theorem activateById_shape (tabId : String) (els : List Element) :
    (activateById tabId els).map (fun el => (el.id, el.tabContent)) =
      els.map fun el => (el.id, el.tabContent) := by
  induction els with
  | nil => rfl
  | cons el rest ih =>
    by_cases h : el.id = tabId
    · simp [activateById, h]
    · simp [activateById, h, ih]

theorem activateById_active (tabId : String) (els : List Element)
    (hids : (els.map Element.id).Nodup)
    (hoff : ∀ el ∈ els, el.tabContent = true → el.active = false) :
    ∀ el ∈ activateById tabId els, el.tabContent = true →
      (el.active = true ↔ el.id = tabId) := by
  induction els with
  | nil => intro el hel; cases hel
  | cons a rest ih =>
    rw [List.map_cons, List.nodup_cons] at hids
    obtain ⟨hfresh, hrest⟩ := hids
    have hoffRest : ∀ el ∈ rest, el.tabContent = true → el.active = false :=
      fun el hel => hoff el (List.mem_cons_of_mem _ hel)
    intro el hel htab
    by_cases h : a.id = tabId
    · simp only [activateById, h, if_true, List.mem_cons] at hel
      rcases hel with rfl | hin
      · simp [h]
      · have hne : el.id ≠ tabId := by
          intro heq
          exact hfresh (List.mem_map.2 ⟨el, hin, heq.trans h.symm⟩)
        simp [hoffRest el hin htab, hne]
    · simp only [activateById, h, if_false, List.mem_cons] at hel
      rcases hel with rfl | hin
      · simp [hoff _ (List.mem_cons_self _ _) htab, h]
      · exact ih hrest hoffRest el hin htab

theorem clickTab_eq {page : Page} {i : Nat} {button : TabButton}
    (hbutton : page.tabButtons[i]? = some button) :
    clickTab page i =
      ⟨(page.tabButtons.map fun btn => { btn with active := false }).set i
          { button with active := true },
        activateById button.dataTab (page.elements.map fun content =>
          if content.tabContent then { content with active := false } else content)⟩ := by
  simp only [clickTab, hbutton]

theorem deactivate_shape (els : List Element) :
    (els.map fun content =>
        if content.tabContent then { content with active := false } else content).map
          (fun el => (el.id, el.tabContent)) =
      els.map fun el => (el.id, el.tabContent) := by
  rw [List.map_map]
  apply List.map_congr_left
  intro el _
  simp only [Function.comp_def]
  split <;> rfl

theorem clickTab_elements_shape {page : Page} {i : Nat} {button : TabButton}
    (hbutton : page.tabButtons[i]? = some button) :
    (clickTab page i).elements.map (fun el => (el.id, el.tabContent)) =
      page.elements.map fun el => (el.id, el.tabContent) := by
  rw [clickTab_eq hbutton]
  simp only
  rw [activateById_shape, deactivate_shape]

theorem clickTab_dataTabs {page : Page} {i : Nat} {button : TabButton}
    (hbutton : page.tabButtons[i]? = some button) :
    (clickTab page i).tabButtons.map TabButton.dataTab =
      page.tabButtons.map TabButton.dataTab := by
  rw [clickTab_eq hbutton]
  apply List.ext_getElem
  · simp
  · intro j h1 h2
    simp only [List.getElem_map, List.getElem_set]
    split
    · rename_i hij
      subst hij
      have hlt : i < page.tabButtons.length := by simpa using h2
      rw [List.getElem?_eq_getElem hlt] at hbutton
      injection hbutton with hb
      rw [← hb]
    · rfl

theorem ids_of_shape {els els2 : List Element}
    (h : els.map (fun el => (el.id, el.tabContent)) =
      els2.map fun el => (el.id, el.tabContent)) :
    els.map Element.id = els2.map Element.id := by
  have := congrArg (List.map Prod.fst) h
  simpa [List.map_map, Function.comp_def] using this

theorem mem_of_shape {els els2 : List Element}
    (h : els.map (fun el => (el.id, el.tabContent)) =
      els2.map fun el => (el.id, el.tabContent))
    {el : Element} (hel : el ∈ els2) :
    ∃ el2 ∈ els, el2.id = el.id ∧ el2.tabContent = el.tabContent := by
  have hmem : (el.id, el.tabContent) ∈ els.map fun el => (el.id, el.tabContent) := by
    rw [h]
    exact List.mem_map.2 ⟨el, hel, rfl⟩
  obtain ⟨el2, hel2, heq⟩ := List.mem_map.1 hmem
  injection heq with h1 h2
  exact ⟨el2, hel2, h1, h2⟩

theorem wellFormed_of_same_shape {page page2 : Page} (hpage : page.WellFormed)
    (hbuttons : page2.tabButtons.map TabButton.dataTab =
      page.tabButtons.map TabButton.dataTab)
    (hshape : page2.elements.map (fun el => (el.id, el.tabContent)) =
      page.elements.map fun el => (el.id, el.tabContent)) :
    page2.WellFormed := by
  obtain ⟨hne, hids, htargets⟩ := hpage
  refine ⟨?_, ?_, ?_⟩
  · intro hnil
    rw [hnil] at hbuttons
    exact hne (List.map_eq_nil_iff.1 hbuttons.symm)
  · rw [ids_of_shape hshape]
    exact hids
  · intro button hbutton
    have hmem : button.dataTab ∈ page.tabButtons.map TabButton.dataTab := by
      rw [← hbuttons]
      exact List.mem_map.2 ⟨button, hbutton, rfl⟩
    obtain ⟨b0, hb0, hdata⟩ := List.mem_map.1 hmem
    obtain ⟨el, hel, hid, htab⟩ := htargets b0 hb0
    obtain ⟨el2, hel2, hid2, htab2⟩ := mem_of_shape hshape hel
    exact ⟨el2, hel2, by rw [hid2, hid, hdata], by rw [htab2, htab]⟩

theorem clickTab_spec {page : Page} (hpage : page.WellFormed) {i : Nat}
    (hi : i < page.tabButtons.length) :
    (clickTab page i).WellFormed ∧
      (clickTab page i).tabButtons.map TabButton.dataTab =
        page.tabButtons.map TabButton.dataTab ∧
      (∀ j (hj : j < (clickTab page i).tabButtons.length),
        ((clickTab page i).tabButtons.get ⟨j, hj⟩).active = true ↔ j = i) ∧
      ∃ panel ∈ (clickTab page i).elements,
        panel.id = (page.tabButtons.get ⟨i, hi⟩).dataTab ∧ panel.tabContent = true ∧
          ∀ el ∈ (clickTab page i).elements, el.tabContent = true →
            (el.active = true ↔ el = panel) := by
  have hbutton : page.tabButtons[i]? = some (page.tabButtons.get ⟨i, hi⟩) :=
    List.getElem?_eq_getElem hi
  have hshape := clickTab_elements_shape hbutton
  have hdata := clickTab_dataTabs hbutton
  have hwf := wellFormed_of_same_shape hpage hdata hshape
  refine ⟨hwf, hdata, ?_, ?_⟩
  · intro j hj
    have hget : ((clickTab page i).tabButtons.get ⟨j, hj⟩).active = decide (i = j) := by
      have hj2 := hj
      simp only [clickTab_eq hbutton, List.length_set, List.length_map] at hj2
      simp only [clickTab_eq hbutton, List.get_eq_getElem, List.getElem_set, List.getElem_map]
      split
      · rename_i hij
        simp [hij]
      · rename_i hij
        simp [hij]
    rw [hget]
    simp [eq_comm]
  · obtain ⟨target, htarget, htid, httab⟩ :=
      hpage.2.2 (page.tabButtons.get ⟨i, hi⟩) (List.get_mem _ _ _)
    obtain ⟨panel, hpanel, hpid, hptab⟩ := mem_of_shape hshape htarget
    refine ⟨panel, hpanel, hpid.trans htid, hptab.trans httab, ?_⟩
    intro el hel heltab
    have hactive : el.active = true ↔ el.id = (page.tabButtons.get ⟨i, hi⟩).dataTab := by
      have hel2 := hel
      rw [clickTab_eq hbutton] at hel2
      refine activateById_active _ _ ?_ ?_ el hel2 heltab
      · rw [ids_of_shape (deactivate_shape page.elements)]
        exact hpage.2.1
      · intro el3 hel3 htab3
        obtain ⟨el0, -, rfl⟩ := List.mem_map.1 hel3
        by_cases h0 : el0.tabContent = true
        · simp only [h0, if_true]
        · simp only [h0] at htab3
          exact absurd htab3 h0
    rw [hactive]
    constructor
    · intro hid
      exact List.inj_on_of_nodup_map hwf.2.1 hel hpanel (hid.trans (hpid.trans htid).symm)
    · rintro rfl
      exact hpid.trans htid
theorem clickTabs_append (page : Page) (clicks : List Nat) (i : Nat) :
    clickTabs page (clicks ++ [i]) = clickTab (clickTabs page clicks) i := by
  simp [clickTabs, List.foldl_append]

theorem length_of_dataTabs {page page2 : Page}
    (h : page2.tabButtons.map TabButton.dataTab = page.tabButtons.map TabButton.dataTab) :
    page2.tabButtons.length = page.tabButtons.length := by
  have := congrArg List.length h
  simpa using this

theorem clickTabs_invariant (page : Page) (hpage : page.WellFormed) (clicks : List Nat)
    (hclicks : ∀ i ∈ clicks, i < page.tabButtons.length) :
    (clickTabs page clicks).WellFormed ∧
      (clickTabs page clicks).tabButtons.map TabButton.dataTab =
        page.tabButtons.map TabButton.dataTab := by
  have hpos : 0 < page.tabButtons.length := List.length_pos.2 hpage.1
  induction clicks using List.reverseRecOn with
  | nil =>
    obtain ⟨hwf, hdata, -, -⟩ := clickTab_spec hpage hpos
    exact ⟨hwf, hdata⟩
  | append_singleton init last ih =>
    obtain ⟨hwf, hdata⟩ := ih fun i hi => hclicks i (List.mem_append_left _ hi)
    have hlast : last < (clickTabs page init).tabButtons.length := by
      rw [length_of_dataTabs hdata]
      exact hclicks last (by simp)
    obtain ⟨hwf2, hdata2, -, -⟩ := clickTab_spec hwf hlast
    rw [clickTabs_append]
    exact ⟨hwf2, hdata2.trans hdata⟩

theorem dataTab_of_dataTabs {page page2 : Page}
    (h : page2.tabButtons.map TabButton.dataTab = page.tabButtons.map TabButton.dataTab)
    {i : Nat} (hi2 : i < page2.tabButtons.length) (hi : i < page.tabButtons.length) :
    (page2.tabButtons.get ⟨i, hi2⟩).dataTab = (page.tabButtons.get ⟨i, hi⟩).dataTab := by
  have h1 : (page2.tabButtons.map TabButton.dataTab)[i]? =
      (page.tabButtons.map TabButton.dataTab)[i]? := by rw [h]
  simpa [List.getElem?_map, List.getElem?_eq_getElem hi2, List.getElem?_eq_getElem hi] using h1

/-- Claim C20: on a page built like `index.html` (there is a tab button, ids are
unique, every `data-tab` names a `.tab-content`), after loading and any sequence of
clicks on tab buttons a button is active exactly when it is the one clicked last (the
first button when there was no click), and there is one panel, the element whose id
is that button's `data-tab`, such that a `.tab-content` is active exactly when it is
that panel. -/
theorem clickTabs_exactly_one_active (page : Page) (clicks : List Nat)
    (hpage : page.WellFormed) (hclicks : ∀ i ∈ clicks, i < page.tabButtons.length) :
    (∀ j (hj : j < (clickTabs page clicks).tabButtons.length),
      ((clickTabs page clicks).tabButtons.get ⟨j, hj⟩).active = true ↔
        j = clicks.getLast?.getD 0) ∧
    ∃ button panel, page.tabButtons[clicks.getLast?.getD 0]? = some button ∧
      panel ∈ (clickTabs page clicks).elements ∧
      panel.id = button.dataTab ∧ panel.tabContent = true ∧
      ∀ el ∈ (clickTabs page clicks).elements, el.tabContent = true →
        (el.active = true ↔ el = panel) := by
  have hpos : 0 < page.tabButtons.length := List.length_pos.2 hpage.1
  induction clicks using List.reverseRecOn with
  | nil =>
    obtain ⟨-, -, hbuttons, panel, hpanel, hid, htab, hpanels⟩ := clickTab_spec hpage hpos
    refine ⟨hbuttons, page.tabButtons.get ⟨0, hpos⟩, panel, ?_, hpanel, hid, htab, hpanels⟩
    exact List.getElem?_eq_getElem hpos
  | append_singleton init last _ =>
    have hlastlt : last < page.tabButtons.length := hclicks last (by simp)
    obtain ⟨hwf, hdata⟩ :=
      clickTabs_invariant page hpage init fun i hi => hclicks i (List.mem_append_left _ hi)
    have hlast : last < (clickTabs page init).tabButtons.length := by
      rw [length_of_dataTabs hdata]
      exact hlastlt
    obtain ⟨-, -, hbuttons, panel, hpanel, hid, htab, hpanels⟩ := clickTab_spec hwf hlast
    have hget : (init ++ [last]).getLast?.getD 0 = last := by simp
    rw [hget, clickTabs_append]
    refine ⟨hbuttons, page.tabButtons.get ⟨last, hlastlt⟩, panel,
      List.getElem?_eq_getElem hlastlt, hpanel, ?_, htab, hpanels⟩
    rw [hid]
    exact dataTab_of_dataTabs hdata hlast hlastlt

/-- Witness of C20: on the index page, the second tab is clicked after the third. -/
theorem clickTabs_exactly_one_active_witness :
    (indexPage.WellFormed ∧ ∀ i ∈ [2, 1], i < indexPage.tabButtons.length) ∧
    (clickTabs indexPage [2, 1]).tabButtons.map TabButton.active = [false, true, false] ∧
    ((clickTabs indexPage [2, 1]).elements.filter fun el => el.tabContent && el.active).map
      Element.id = ["update-progress-tab"] ∧
    (∀ j (hj : j < (clickTabs indexPage [2, 1]).tabButtons.length),
      ((clickTabs indexPage [2, 1]).tabButtons.get ⟨j, hj⟩).active = true ↔
        j = [2, 1].getLast?.getD 0) :=
  ⟨⟨by decide, by decide⟩, by decide, by decide,
    (clickTabs_exactly_one_active indexPage [2, 1] (by decide) (by decide)).1⟩

/-! ## Time ranges: default case and nesting -/

/-- Claim C21: for `all-time`, and for every `timeRange` other than `last-month`,
`last-3-months` and `last-6-months`, `filterDataByTimeRange` returns the list it was
given, in every engine, at every instant and in every zone. -/
theorem filterDataByTimeRange_other_range_unchanged (dateParse : String → Option Int)
    (localTZA now : Int) (data : List ProgressRow) (timeRange : String)
    (h1 : timeRange ≠ "last-month") (h3 : timeRange ≠ "last-3-months")
    (h6 : timeRange ≠ "last-6-months") :
    filterDataByTimeRange dateParse localTZA now data timeRange = data := by
  simp only [filterDataByTimeRange, h1, h3, h6, if_false]

/-- Witness of C21: the range `all-time` on the three sample entries. -/
theorem filterDataByTimeRange_other_range_unchanged_witness :
    ("all-time" ≠ "last-month" ∧ "all-time" ≠ "last-3-months" ∧
      "all-time" ≠ "last-6-months") ∧
    filterDataByTimeRange isoDateOnly 0 1717243200000 threeEntries "all-time" =
      threeEntries :=
  ⟨by decide,
    filterDataByTimeRange_other_range_unchanged isoDateOnly 0 1717243200000 threeEntries
      "all-time" (by decide) (by decide) (by decide)⟩

/-- Claim C23: a `weight` equal to the number 0 is falsy, so for every store, every
`exercise_id` (stored or not) and every date the request is answered 400 with
`Exercise ID, weight, and date are required` and the store is returned as given:
nothing is inserted. -/
theorem addProgress_zero_weight_is_missing (db : Store) (exercise_id : Int)
    (date : String) :
    truthyNumber (some 0) = none ∧
      addProgress db ⟨some exercise_id, some 0, some date⟩ =
        (⟨400, .error "Exercise ID, weight, and date are required"⟩, db) ∧
      (addProgress db ⟨some exercise_id, some 0, some date⟩).2.progress = db.progress := by
  have hrun : addProgress db ⟨some exercise_id, some 0, some date⟩ =
      (⟨400, .error "Exercise ID, weight, and date are required"⟩, db) :=
    addProgress_of_falsy (Or.inr (Or.inl rfl))
  exact ⟨rfl, hrun, by rw [hrun]⟩

theorem dayFromYear_succ (y : Int) :
    dayFromYear (y + 1) = dayFromYear y + 365 + inLeapYear y := by
  unfold dayFromYear inLeapYear daysInYear
  split_ifs <;> omega

theorem inLeapYear_range (y : Int) : inLeapYear y = 0 ∨ inLeapYear y = 1 := by
  unfold inLeapYear
  split_ifs
  · exact Or.inr rfl
  · exact Or.inl rfl

theorem ite_month_range {c : Prop} [Decidable c] {a b : Int}
    (ha : 0 ≤ a ∧ a ≤ 11) (hb : 0 ≤ b ∧ b ≤ 11) :
    0 ≤ (if c then a else b) ∧ (if c then a else b) ≤ 11 := by
  by_cases h : c
  · rw [if_pos h]; exact ha
  · rw [if_neg h]; exact hb

theorem monthFromTime_range (t : Int) : 0 ≤ monthFromTime t ∧ monthFromTime t ≤ 11 := by
  unfold monthFromTime
  dsimp only
  repeat (first | exact ⟨by decide, by decide⟩ | apply ite_month_range)

theorem day_eq_of_fields (t : Int) :
    day t = dayFromYear (yearFromTime t) +
      daysBeforeMonth (monthFromTime t) (inLeapYear (yearFromTime t)) + dateFromTime t - 1 := by
  unfold dateFromTime dayWithinYear
  omega

theorem makeDay_this_year (y k date : Int) (h0 : 0 ≤ k) (h11 : k ≤ 11) :
    makeDay y k date = dayFromYear y + daysBeforeMonth k (inLeapYear y) + date - 1 := by
  have hq : k / 12 = 0 := by omega
  have hr : k % 12 = k := by omega
  simp only [makeDay, hq, hr, Int.add_zero]

theorem makeDay_last_year (y k date : Int) (h0 : -12 ≤ k) (h11 : k ≤ -1) :
    makeDay y k date =
      dayFromYear (y - 1) + daysBeforeMonth (k + 12) (inLeapYear (y - 1)) + date - 1 := by
  have hq : k / 12 = -1 := by omega
  have hr : k % 12 = k + 12 := by omega
  simp only [makeDay, hq, hr]
  rfl

theorem daysBeforeMonth_step (m leap : Int) (h0 : 0 ≤ m) (h11 : m ≤ 10)
    (hleap : leap = 0 ∨ leap = 1) :
    daysBeforeMonth m leap + 28 ≤ daysBeforeMonth (m + 1) leap ∧
      daysBeforeMonth (m + 1) leap ≤ daysBeforeMonth m leap + 31 := by
  rcases hleap with rfl | rfl <;> interval_cases m <;> decide

theorem daysBeforeMonth_bounds (m leap : Int) (h0 : 0 ≤ m) (h11 : m ≤ 11)
    (hleap : leap = 0 ∨ leap = 1) :
    0 ≤ daysBeforeMonth m leap ∧ daysBeforeMonth m leap ≤ 334 + leap ∧
      (m = 0 → daysBeforeMonth m leap = 0) := by
  rcases hleap with rfl | rfl <;> interval_cases m <;> decide

theorem makeDay_eq_monthStart (y k date : Int) :
    makeDay y k date = monthStart y k + date - 1 := by
  simp only [monthStart, makeDay]
  omega

theorem monthStart_lt_succ (y k : Int) (h0 : -12 ≤ k) (h11 : k ≤ 10) :
    monthStart y k < monthStart y (k + 1) := by
  have hleap := inLeapYear_range y
  have hleap1 := inLeapYear_range (y - 1)
  have hyear : dayFromYear y = dayFromYear (y - 1) + 365 + inLeapYear (y - 1) := by
    have := dayFromYear_succ (y - 1)
    rwa [Int.sub_add_cancel] at this
  unfold monthStart
  by_cases hk : 0 ≤ k
  · rw [makeDay_this_year y k 1 hk (by omega), makeDay_this_year y (k + 1) 1 (by omega)
      (by omega)]
    have := daysBeforeMonth_step k (inLeapYear y) hk h11 hleap
    omega
  · by_cases hk1 : k = -1
    · subst hk1
      rw [makeDay_last_year y (-1) 1 (by omega) (by omega),
        makeDay_this_year y (-1 + 1) 1 (by omega) (by omega)]
      have h1 := daysBeforeMonth_bounds (-1 + 12) (inLeapYear (y - 1)) (by omega) (by omega)
        hleap1
      have h2 := daysBeforeMonth_bounds (-1 + 1) (inLeapYear y) (by omega) (by omega) hleap
      have h3 := h2.2.2 (by omega)
      omega
    · rw [makeDay_last_year y k 1 h0 (by omega),
        makeDay_last_year y (k + 1) 1 (by omega) (by omega)]
      have := daysBeforeMonth_step (k + 12) (inLeapYear (y - 1)) (by omega) (by omega) hleap1
      have hidx : k + 1 + 12 = k + 12 + 1 := by omega
      rw [hidx]
      omega

theorem monthStart_le (y : Int) {j k : Int} (hj : -12 ≤ j) (hjk : j ≤ k) (hk : k ≤ 11) :
    monthStart y j ≤ monthStart y k := by
  obtain ⟨n, rfl⟩ : ∃ n : Nat, k = j + n := ⟨(k - j).toNat, by omega⟩
  induction n with
  | zero => simp
  | succ n ih =>
    have hstep := monthStart_lt_succ y (j + n) (by omega) (by omega)
    have hprev := ih (by omega) (by omega)
    have hidx : j + ((n + 1 : Nat) : Int) = j + n + 1 := by omega
    rw [hidx]
    omega

theorem filter_sublist_filter {α : Type} (p q : α → Bool) (l : List α)
    (h : ∀ a, p a = true → q a = true) : (l.filter p).Sublist (l.filter q) := by
  induction l with
  | nil => exact List.Sublist.slnil
  | cons a rest ih =>
    by_cases hp : p a = true
    · rw [List.filter_cons_of_pos hp, List.filter_cons_of_pos (h a hp)]
      exact ih.cons₂ a
    · rw [List.filter_cons_of_neg hp]
      by_cases hq : q a = true
      · rw [List.filter_cons_of_pos hq]
        exact ih.cons a
      · rw [List.filter_cons_of_neg hq]
        exact ih

theorem notBeforeCutoff_mono (dateParse : String → Option Int) {early late : Int}
    (h : early ≤ late) (entry : ProgressRow)
    (hkept : notBeforeCutoff dateParse late entry = true) :
    notBeforeCutoff dateParse early entry = true := by
  unfold notBeforeCutoff at *
  cases hparse : dateParse entry.date with
  | none => rw [hparse] at hkept; exact hkept
  | some t =>
    rw [hparse] at hkept
    simp only [decide_eq_true_eq] at hkept ⊢
    exact le_trans h hkept

theorem setMonth_eq (localTZA now n : Int) :
    setMonth localTZA now (getMonth localTZA now - n) =
      (monthStart (yearFromTime (now + localTZA)) (monthFromTime (now + localTZA) - n) +
        dateFromTime (now + localTZA) - 1) * msPerDay +
          timeWithinDay (now + localTZA) - localTZA := by
  simp only [setMonth, getMonth, makeDate, makeDay_eq_monthStart]

theorem now_eq (localTZA now : Int) :
    now = (monthStart (yearFromTime (now + localTZA)) (monthFromTime (now + localTZA)) +
        dateFromTime (now + localTZA) - 1) * msPerDay +
          timeWithinDay (now + localTZA) - localTZA := by
  have hm := monthFromTime_range (now + localTZA)
  have hday := day_eq_of_fields (now + localTZA)
  rw [← makeDay_eq_monthStart, makeDay_this_year _ _ _ hm.1 hm.2, ← hday]
  have hsplit : day (now + localTZA) * msPerDay + timeWithinDay (now + localTZA) =
      now + localTZA := by
    unfold day timeWithinDay
    rw [Int.mul_comm]
    exact Int.ediv_add_emod _ _
  omega

theorem cutoffs_ordered (localTZA now : Int) :
    setMonth localTZA now (getMonth localTZA now - 6) ≤
        setMonth localTZA now (getMonth localTZA now - 3) ∧
      setMonth localTZA now (getMonth localTZA now - 3) ≤
        setMonth localTZA now (getMonth localTZA now - 1) ∧
      setMonth localTZA now (getMonth localTZA now - 1) ≤ now := by
  have hm := monthFromTime_range (now + localTZA)
  have h63 := monthStart_le (yearFromTime (now + localTZA))
    (j := monthFromTime (now + localTZA) - 6) (k := monthFromTime (now + localTZA) - 3)
    (by omega) (by omega) (by omega)
  have h31 := monthStart_le (yearFromTime (now + localTZA))
    (j := monthFromTime (now + localTZA) - 3) (k := monthFromTime (now + localTZA) - 1)
    (by omega) (by omega) (by omega)
  have h10 := monthStart_le (yearFromTime (now + localTZA))
    (j := monthFromTime (now + localTZA) - 1) (k := monthFromTime (now + localTZA))
    (by omega) (by omega) (by omega)
  have hnow := now_eq localTZA now
  rw [setMonth_eq, setMonth_eq, setMonth_eq]
  unfold msPerDay at *
  refine ⟨by omega, by omega, by omega⟩

/-- Claim C24: in every engine, at every instant and in every zone, and for every
list, the result for `last-month` is a sublist of the result for `last-3-months`,
which is a sublist of the result for `last-6-months`, which is a sublist of the
input; and the cutoffs computed by `setMonth(getMonth() - n)`, day-of-month overflow
and year rollover included, satisfy cutoff(6) ≤ cutoff(3) ≤ cutoff(1) ≤ now. -/
theorem filterDataByTimeRange_ranges_nested (dateParse : String → Option Int)
    (localTZA now : Int) (data : List ProgressRow) :
    (filterDataByTimeRange dateParse localTZA now data "last-month").Sublist
        (filterDataByTimeRange dateParse localTZA now data "last-3-months") ∧
      (filterDataByTimeRange dateParse localTZA now data "last-3-months").Sublist
        (filterDataByTimeRange dateParse localTZA now data "last-6-months") ∧
      (filterDataByTimeRange dateParse localTZA now data "last-6-months").Sublist data ∧
      setMonth localTZA now (getMonth localTZA now - 6) ≤
        setMonth localTZA now (getMonth localTZA now - 3) ∧
      setMonth localTZA now (getMonth localTZA now - 3) ≤
        setMonth localTZA now (getMonth localTZA now - 1) ∧
      setMonth localTZA now (getMonth localTZA now - 1) ≤ now := by
  obtain ⟨h63, h31, h10⟩ := cutoffs_ordered localTZA now
  rw [filterDataByTimeRange_of_range dateParse localTZA now data (n := 1)
      (Or.inl ⟨rfl, rfl⟩),
    filterDataByTimeRange_of_range dateParse localTZA now data (n := 3)
      (Or.inr (Or.inl ⟨rfl, rfl⟩)),
    filterDataByTimeRange_of_range dateParse localTZA now data (n := 6)
      (Or.inr (Or.inr ⟨rfl, rfl⟩))]
  exact ⟨filter_sublist_filter _ _ _ (notBeforeCutoff_mono dateParse h31),
    filter_sublist_filter _ _ _ (notBeforeCutoff_mono dateParse h63),
    List.filter_sublist _, h63, h31, h10⟩

/-! ## Interleaved requests -/

/-- Run one after the other with no other request in between, the three callbacks of
a request do what `addExercise` does. -/
theorem stepExercise_alone (db : Store) (body : ExerciseBody) :
    stepExercise
        (stepExercise (stepExercise db (.received body)).2
          (stepExercise db (.received body)).1).2
        (stepExercise (stepExercise db (.received body)).2
          (stepExercise db (.received body)).1).1 =
      (.answered (addExercise db body).1, (addExercise db body).2) := by
  simp only [stepExercise, addExercise]
  cases truthyText body.name with
  | none => rfl
  | some name =>
    cases truthyText body.muscle_group with
    | none => rfl
    | some muscle_group =>
      simp only
      cases findExerciseByNameGroup db name muscle_group <;> rfl

/-- Claim C22: two requests for the same new pair of non-empty strings, scheduled so
that both lookups run before either insert, are both answered 200, with different
ids, and leave the store with two exercises of that pair. -/
theorem concurrent_addExercise_duplicates (db : Store) (name muscle_group : String)
    (hname : name ≠ "") (hgroup : muscle_group ≠ "")
    (hnew : ∀ e ∈ db.exercises, ¬(e.name = name ∧ e.muscle_group = muscle_group)) :
    ∃ id1 id2 db2,
      runTwo db (.received ⟨some name, some muscle_group⟩)
          (.received ⟨some name, some muscle_group⟩) checksBeforeInserts =
        (.answered ⟨200, .json ⟨id1, name, muscle_group, "Exercise added successfully"⟩⟩,
          .answered ⟨200, .json ⟨id2, name, muscle_group, "Exercise added successfully"⟩⟩,
          db2) ∧
      id1 ≠ id2 ∧
      db2.exercises =
        db.exercises ++ [⟨id1, name, muscle_group⟩, ⟨id2, name, muscle_group⟩] ∧
      db2.exercises.countP (fun e => e.name = name ∧ e.muscle_group = muscle_group) = 2 := by
  have hfind : findExerciseByNameGroup db name muscle_group = none :=
    findExerciseByNameGroup_eq_none.2 hnew
  have hzero :
      db.exercises.countP (fun e => e.name = name ∧ e.muscle_group = muscle_group) = 0 := by
    rw [List.countP_eq_zero]
    intro e he
    simpa using hnew e he
  refine ⟨(insertExercise db name muscle_group).1,
    (insertExercise (insertExercise db name muscle_group).2 name muscle_group).1,
    (insertExercise (insertExercise db name muscle_group).2 name muscle_group).2,
    ?_, ?_, ?_, ?_⟩
  · simp only [checksBeforeInserts, runTwo, stepExercise, truthyText_some hname,
      truthyText_some hgroup, hfind]
  · apply ne_of_lt
    show (insertExercise db name muscle_group).1 <
      nextRowid ((insertExercise db name muscle_group).2.exercises.map Exercise.id)
        (insertExercise db name muscle_group).2.exercises_seq
    apply lt_nextRowid
    show (insertExercise db name muscle_group).1 ∈
      (db.exercises ++
        [(⟨(insertExercise db name muscle_group).1, name, muscle_group⟩ : Exercise)]).map
          Exercise.id
    simp
  · show db.exercises ++ [_] ++ [_] = _
    rw [List.append_assoc]
    rfl
  · show List.countP _ (db.exercises ++ [_] ++ [_]) = 2
    rw [List.countP_append, List.countP_append, hzero]
    simp [List.countP_cons]

/-- Witness of C22: two requests for Deadlift/Back in flight at once. -/
theorem concurrent_addExercise_duplicates_witness :
    ("Deadlift" ≠ "" ∧ "Back" ≠ "" ∧
      ∀ e ∈ twoExercises.exercises, ¬(e.name = "Deadlift" ∧ e.muscle_group = "Back")) ∧
    ∃ id1 id2 db2,
      runTwo twoExercises (.received ⟨some "Deadlift", some "Back"⟩)
          (.received ⟨some "Deadlift", some "Back"⟩) checksBeforeInserts =
        (.answered ⟨200, .json ⟨id1, "Deadlift", "Back", "Exercise added successfully"⟩⟩,
          .answered ⟨200, .json ⟨id2, "Deadlift", "Back", "Exercise added successfully"⟩⟩,
          db2) ∧
      id1 ≠ id2 ∧
      db2.exercises =
        twoExercises.exercises ++ [⟨id1, "Deadlift", "Back"⟩, ⟨id2, "Deadlift", "Back"⟩] ∧
      db2.exercises.countP (fun e => e.name = "Deadlift" ∧ e.muscle_group = "Back") = 2 :=
  ⟨⟨by decide, by decide, by decide⟩,
    concurrent_addExercise_duplicates twoExercises "Deadlift" "Back"
      (by decide) (by decide) (by decide)⟩

end GymTracker
